import Mathlib

/-!
Verification of the frictionless-ckan-mapper converters.

The repository converts dataset/resource metadata between the CKAN
("Catalog") schema and the Frictionless ("Package") schema.  The two
source modules are embedded here:

* `ckan_to_frictionless.py` : `resource` (= catalogResourceToPackage) and
  `dataset` (= catalogDatasetToPackage);
* `frictionless_to_ckan.py` : `FrictionlessToCKAN.package`
  (= packageToCatalog, dataset direction).

Records are Python dicts with string keys and JSON-compatible values;
they are modelled as ordered association lists.  Python numeric values
are modelled as integers (the repository's data never computes with
floats; float literals are therefore not modelled by the JSON parser
below and a comment marks the spot).
-/

/-- A JSON-compatible Python value: `None`, `bool`, `int`, `str`,
`list`, `dict` (string-keyed, insertion ordered). -/
inductive JValue : Type where
  | null : JValue
  | b : Bool → JValue
  | i : Int → JValue
  | s : String → JValue
  | arr : List JValue → JValue
  | obj : List (String × JValue) → JValue
deriving Repr

mutual

def decEqJ : (a b : JValue) → Decidable (a = b)
  | .null, .null => isTrue rfl
  | .null, .b _ => isFalse fun h => JValue.noConfusion h
  | .null, .i _ => isFalse fun h => JValue.noConfusion h
  | .null, .s _ => isFalse fun h => JValue.noConfusion h
  | .null, .arr _ => isFalse fun h => JValue.noConfusion h
  | .null, .obj _ => isFalse fun h => JValue.noConfusion h
  | .b _, .null => isFalse fun h => JValue.noConfusion h
  | .b x, .b y =>
    if h : x = y then isTrue (by rw [h]) else isFalse (fun hh => h (by injection hh))
  | .b _, .i _ => isFalse fun h => JValue.noConfusion h
  | .b _, .s _ => isFalse fun h => JValue.noConfusion h
  | .b _, .arr _ => isFalse fun h => JValue.noConfusion h
  | .b _, .obj _ => isFalse fun h => JValue.noConfusion h
  | .i _, .null => isFalse fun h => JValue.noConfusion h
  | .i _, .b _ => isFalse fun h => JValue.noConfusion h
  | .i x, .i y =>
    if h : x = y then isTrue (by rw [h]) else isFalse (fun hh => h (by injection hh))
  | .i _, .s _ => isFalse fun h => JValue.noConfusion h
  | .i _, .arr _ => isFalse fun h => JValue.noConfusion h
  | .i _, .obj _ => isFalse fun h => JValue.noConfusion h
  | .s _, .null => isFalse fun h => JValue.noConfusion h
  | .s _, .b _ => isFalse fun h => JValue.noConfusion h
  | .s _, .i _ => isFalse fun h => JValue.noConfusion h
  | .s x, .s y =>
    if h : x = y then isTrue (by rw [h]) else isFalse (fun hh => h (by injection hh))
  | .s _, .arr _ => isFalse fun h => JValue.noConfusion h
  | .s _, .obj _ => isFalse fun h => JValue.noConfusion h
  | .arr _, .null => isFalse fun h => JValue.noConfusion h
  | .arr _, .b _ => isFalse fun h => JValue.noConfusion h
  | .arr _, .i _ => isFalse fun h => JValue.noConfusion h
  | .arr _, .s _ => isFalse fun h => JValue.noConfusion h
  | .arr xs, .arr ys =>
    match decEqLJ xs ys with
    | isTrue h => isTrue (by rw [h])
    | isFalse h => isFalse (fun hh => h (by injection hh))
  | .arr _, .obj _ => isFalse fun h => JValue.noConfusion h
  | .obj _, .null => isFalse fun h => JValue.noConfusion h
  | .obj _, .b _ => isFalse fun h => JValue.noConfusion h
  | .obj _, .i _ => isFalse fun h => JValue.noConfusion h
  | .obj _, .s _ => isFalse fun h => JValue.noConfusion h
  | .obj _, .arr _ => isFalse fun h => JValue.noConfusion h
  | .obj xs, .obj ys =>
    match decEqOJ xs ys with
    | isTrue h => isTrue (by rw [h])
    | isFalse h => isFalse (fun hh => h (by injection hh))

def decEqLJ : (a b : List JValue) → Decidable (a = b)
  | [], [] => isTrue rfl
  | [], _ :: _ => isFalse fun h => List.noConfusion h
  | _ :: _, [] => isFalse fun h => List.noConfusion h
  | x :: xs, y :: ys =>
    match decEqJ x y with
    | isTrue h1 =>
      match decEqLJ xs ys with
      | isTrue h2 => isTrue (by rw [h1, h2])
      | isFalse h2 => isFalse (fun hh => h2 (by injection hh))
    | isFalse h1 => isFalse (fun hh => h1 (by injection hh))

def decEqOJ : (a b : List (String × JValue)) → Decidable (a = b)
  | [], [] => isTrue rfl
  | [], _ :: _ => isFalse fun h => List.noConfusion h
  | _ :: _, [] => isFalse fun h => List.noConfusion h
  | (k, v) :: xs, (k', v') :: ys =>
    if hk : k = k' then
      match decEqJ v v' with
      | isTrue h1 =>
        match decEqOJ xs ys with
        | isTrue h2 => isTrue (by rw [hk, h1, h2])
        | isFalse h2 => isFalse (fun hh => h2 (by injection hh))
      | isFalse h1 =>
        isFalse (fun hh => by
          injection hh with hh1 hh2
          exact h1 (by cases hh1; rfl))
    else
      isFalse (fun hh => by
        injection hh with hh1 hh2
        exact hk (by cases hh1; rfl))

end

instance : DecidableEq JValue := decEqJ

/-- A record: a Python dict as an ordered association list. -/
abbrev Record := List (String × JValue)

/-- `d[k]` read: first binding of `k` (Python dicts are duplicate-free,
so "first" is "the" binding on real inputs). -/
def pyGet : Record → String → Option JValue
  | [], _ => none
  | (k', v) :: rest, k => if k' = k then some v else pyGet rest k

/-- `d[k] = v`: overwrite in place keeping the key's position, append at
the end when the key is new (Python dict insertion-order semantics). -/
def pySet : Record → String → JValue → Record
  | [], k, v => [(k, v)]
  | (k', v') :: rest, k, v =>
    if k' = k then (k', v) :: rest else (k', v') :: pySet rest k v

/-- `del d[k]` / `d.pop(k, None)`: remove the binding.  (At every `del`
site of the sources the key is provably present, so the KeyError that
Python's `del` would raise on a missing key is unreachable and not
modelled.) -/
def pyDel (r : Record) (k : String) : Record :=
  r.filter (fun kv => kv.1 ≠ k)

/-- `k in d` for a dict. -/
def pyHas (r : Record) (k : String) : Bool :=
  (pyGet r k).isSome

/-- Python truthiness of a value (`if x:`). -/
def pyTruthy : JValue → Bool
  | .null => false
  | .b v => v
  | .i v => v != 0
  | .s v => v ≠ ""
  | .arr l => !l.isEmpty
  | .obj l => !l.isEmpty

/-- `d.get(k)`: `None` when absent. -/
def pyGetD (r : Record) (k : String) : JValue :=
  (pyGet r k).getD .null

example : pyGet [("a", .i 1), ("b", .null)] "b" = some .null := by decide
example : pySet [("a", .i 1), ("b", .i 2)] "a" (.i 9) = [("a", .i 9), ("b", .i 2)] := by decide
example : pyTruthy (.arr []) = false := by decide

mutual

/-- Structural size of a value, used only as recursion fuel. -/
def jSize (v : JValue) : Nat :=
  match v with
  | .obj l => jSizeO l + 1
  | .arr l => jSizeL l + 1
  | _ => 1

def jSizeL (l : List JValue) : Nat :=
  match l with
  | [] => 0
  | x :: xs => jSize x + jSizeL xs + 1

def jSizeO (l : List (String × JValue)) : Nat :=
  match l with
  | [] => 0
  | kv :: xs => jSize kv.2 + jSizeO xs + 1

end

/-- Python `==`, fuelled by structural size (Python compares `dict`s
ignoring insertion order, and `True == 1`, `False == 0`).  The fuel
`jSize a` dominates the recursion depth, so the `0`-fuel branch is
unreachable. -/
def pyEqF : Nat → JValue → JValue → Bool
  | 0, _, _ => false
  | f + 1, a, b =>
    match a, b with
    | .null, .null => true
    | .b x, .b y => x == y
    | .b x, .i y => (if x then (1 : Int) else 0) == y
    | .i x, .b y => x == (if y then (1 : Int) else 0)
    | .i x, .i y => x == y
    | .s x, .s y => x == y
    | .arr xs, .arr ys =>
      xs.length == ys.length && (xs.zip ys).all fun p => pyEqF f p.1 p.2
    | .obj xs, .obj ys =>
      xs.length == ys.length && xs.all fun kv =>
        match pyGet ys kv.1 with
        | some w => pyEqF f kv.2 w
        | none => false
    | _, _ => false

/-- Python `==` on values. -/
def pyEq (a b : JValue) : Bool := pyEqF (jSize a) a b

example : pyEq (.obj [("x", .i 1), ("y", .i 2)]) (.obj [("y", .i 2), ("x", .i 1)]) = true := by
  decide

/-- The Python exceptions the two modules can raise (uncaught). -/
inductive PyErr where
  | keyError (k : String)
  | typeError
  | attributeError
  | indexError
  | jsonError
deriving DecidableEq, Repr

instance {ε α : Type} [DecidableEq ε] [DecidableEq α] : DecidableEq (Except ε α) := fun a b =>
  match a, b with
  | .ok x, .ok y =>
    if h : x = y then isTrue (by rw [h]) else isFalse (fun hh => h (by injection hh))
  | .ok _, .error _ => isFalse fun h => Except.noConfusion h
  | .error _, .ok _ => isFalse fun h => Except.noConfusion h
  | .error x, .error y =>
    if h : x = y then isTrue (by rw [h]) else isFalse (fun hh => h (by injection hh))

/-- `for x in v`: Python iteration over a value.  Lists yield their
elements, strings their characters, dicts their keys; scalars and
`None` raise `TypeError`. -/
def pyIter : JValue → Except PyErr (List JValue)
  | .arr l => .ok l
  | .s str => .ok (str.data.map fun c => .s (String.singleton c))
  | .obj kvs => .ok (kvs.map fun kv => .s kv.1)
  | _ => .error .typeError

/-- `v[k]` for a string subscript.  Only dicts accept it (raising
`KeyError` on a missing key); strings and lists want integer indices
(`TypeError`), scalars are not subscriptable (`TypeError`). -/
def pySub (v : JValue) (k : String) : Except PyErr JValue :=
  match v with
  | .obj kvs =>
    match pyGet kvs k with
    | some w => .ok w
    | none => .error (.keyError k)
  | _ => .error .typeError

/-- `v[n]` for an integer subscript.  Out-of-range list/string access
raises `IndexError`; a dict subscripted by an int raises `KeyError`. -/
def pySubIdx (v : JValue) (n : Nat) : Except PyErr JValue :=
  match v with
  | .arr l =>
    match l.get? n with
    | some w => .ok w
    | none => .error .indexError
  | .s str =>
    match str.data.get? n with
    | some c => .ok (.s (String.singleton c))
    | none => .error .indexError
  | .obj _ => .error (.keyError (toString n))
  | _ => .error .typeError

/-- `v.get(k)`: dict method, `None` default; any non-dict raises
`AttributeError`. -/
def pyGetMeth (v : JValue) (k : String) : Except PyErr JValue :=
  match v with
  | .obj kvs => .ok ((pyGet kvs k).getD .null)
  | _ => .error .attributeError

/-- `len(v)`. -/
def pyLen : JValue → Except PyErr Nat
  | .arr l => .ok l.length
  | .s str => .ok str.length
  | .obj kvs => .ok kvs.length
  | _ => .error .typeError

/-- Leading match of one character list against another. -/
def listLe (xs ys : List Char) : Bool :=
  match xs, ys with
  | [], _ => true
  | c :: cs, d :: ds => if c == d then listLe cs ds else false
  | _, [] => false

/-- Contiguous-sublist test on character lists (Python `sub in str`). -/
def listSub (needle : List Char) : List Char → Bool
  | [] => listLe needle []
  | l@(_ :: t) => listLe needle l || listSub needle t

/-- `x in v` for Python's `in` operator: list membership by `==`, dict
key membership, substring test; unhashable needles against a dict and
non-string needles against a string raise `TypeError`. -/
def pyIn (needle container : JValue) : Except PyErr Bool :=
  match container with
  | .arr l => .ok (l.any (pyEq needle))
  | .obj kvs =>
    match needle with
    | .arr _ => .error .typeError
    | .obj _ => .error .typeError
    | .s k => .ok (kvs.any fun kv => kv.1 == k)
    | _ => .ok false
  | .s str =>
    match needle with
    | .s sub => .ok (listSub sub.data str.data)
    | _ => .error .typeError
  | _ => .error .typeError

/-- Whitespace stripped by Python's `str.strip()` (ASCII subset; the
records under test carry no exotic unicode spacing). -/
def stripWs (c : Char) : Bool :=
  [' ', '\t', '\n', '\r', '\x0b', '\x0c'].contains c

/-- Python `str.strip()`. -/
def pyStrip (s : String) : String :=
  ⟨((s.data.dropWhile stripWs).reverse.dropWhile stripWs).reverse⟩

/-- `str.startswith(c)` for a one-character needle. -/
def startsWithChar (s : String) (c : Char) : Bool :=
  match s.data with
  | [] => false
  | d :: _ => d == c

example : pyStrip "  \x7bx\x7d " = "\x7bx\x7d" := by decide
example : startsWithChar "\x7ba" '{' = true := by decide

/-- JSON insignificant whitespace (the exact set `json.loads` skips). -/
def jsonWs (c : Char) : Bool :=
  [' ', '\t', '\n', '\r'].contains c

def skipWs (cs : List Char) : List Char := cs.dropWhile jsonWs

def digitsToNat : List Char → Nat → Nat
  | [], acc => acc
  | c :: cs, acc => digitsToNat cs (acc * 10 + (c.toNat - '0'.toNat))

/-- Escape sequences accepted inside a JSON string (`\uXXXX` is not
modelled; the records under test never use it). -/
def escChar (e : Char) : Option Char :=
  if e == 'n' then some '\n'
  else if e == 't' then some '\t'
  else if e == 'r' then some '\r'
  else if e == '/' then some '/'
  else if e == '"' then some '"'
  else if e == '\\' then some '\\'
  else if e == 'b' then some '\x08'
  else if e == 'f' then some '\x0c'
  else none

mutual

/-- Recursive-descent JSON value parser (the external `json.loads`
collaborator of spec §6).  Numbers are modelled as integers only: a
fraction or exponent makes the parse fail rather than produce a float,
which the claims never exercise. -/
def pVal : Nat → List Char → Option (JValue × List Char)
  | 0, _ => none
  | f + 1, cs =>
    match skipWs cs with
    | '{' :: rest => pObjBody f rest
    | '[' :: rest => pArrBody f rest
    | '"' :: rest =>
      match pStr f rest with
      | some (str, r2) => some (.s str, r2)
      | none => none
    | 't' :: 'r' :: 'u' :: 'e' :: r => some (.b true, r)
    | 'f' :: 'a' :: 'l' :: 's' :: 'e' :: r => some (.b false, r)
    | 'n' :: 'u' :: 'l' :: 'l' :: r => some (.null, r)
    | '-' :: r =>
      match pInt f r with
      | some (n, r2) => some (.i (-(n : Int)), r2)
      | none => none
    | c :: r =>
      if c.isDigit then
        match pInt f (c :: r) with
        | some (n, r2) => some (.i (n : Int), r2)
        | none => none
      else none
    | [] => none

def pObjBody : Nat → List Char → Option (JValue × List Char)
  | 0, _ => none
  | f + 1, rest =>
    match skipWs rest with
    | '}' :: r2 => some (.obj [], r2)
    | r2 =>
      match pMembers f r2 with
      | some (kvs, r3) => some (.obj kvs, r3)
      | none => none

def pArrBody : Nat → List Char → Option (JValue × List Char)
  | 0, _ => none
  | f + 1, rest =>
    match skipWs rest with
    | ']' :: r2 => some (.arr [], r2)
    | r2 =>
      match pElems f r2 with
      | some (xs, r3) => some (.arr xs, r3)
      | none => none

def pMembers : Nat → List Char → Option (List (String × JValue) × List Char)
  | 0, _ => none
  | f + 1, cs =>
    match skipWs cs with
    | '"' :: rest =>
      match pStr f rest with
      | some (k, r2) =>
        match skipWs r2 with
        | ':' :: r3 =>
          match pVal f r3 with
          | some (v, r4) =>
            match skipWs r4 with
            | ',' :: r5 =>
              match pMembers f r5 with
              | some (kvs, r6) => some ((k, v) :: kvs, r6)
              | none => none
            | '}' :: r5 => some ([(k, v)], r5)
            | _ => none
          | none => none
        | _ => none
      | none => none
    | _ => none

def pElems : Nat → List Char → Option (List JValue × List Char)
  | 0, _ => none
  | f + 1, cs =>
    match pVal f cs with
    | some (v, r1) =>
      match skipWs r1 with
      | ',' :: r2 =>
        match pElems f r2 with
        | some (xs, r3) => some (v :: xs, r3)
        | none => none
      | ']' :: r2 => some ([v], r2)
      | _ => none
    | none => none

def pStr : Nat → List Char → Option (String × List Char)
  | 0, _ => none
  | f + 1, cs =>
    match cs with
    | '"' :: r => some ("", r)
    | '\\' :: e :: r =>
      match escChar e with
      | some c =>
        match pStr f r with
        | some (str, r2) => some (⟨c :: str.data⟩, r2)
        | none => none
      | none => none
    | c :: r =>
      match pStr f r with
      | some (str, r2) => some (⟨c :: str.data⟩, r2)
      | none => none
    | [] => none

def pInt : Nat → List Char → Option (Nat × List Char)
  | 0, _ => none
  | _ + 1, cs =>
    let ds := cs.takeWhile Char.isDigit
    let rest := cs.dropWhile Char.isDigit
    if ds.isEmpty then none
    else
      match rest with
      | '.' :: _ => none
      | 'e' :: _ => none
      | 'E' :: _ => none
      | _ => some (digitsToNat ds 0, rest)

end

/-- `json.loads`: `none` models a raised `JSONDecodeError` (strict
whole-string parse). -/
def jsonParse (str : String) : Option JValue :=
  match pVal (str.length + 8) str.data with
  | some (v, rest) => if (skipWs rest).isEmpty then some v else none
  | none => none

example : jsonParse "[2015, 2016]" = some (.arr [.i 2015, .i 2016]) := by decide
example : jsonParse "\x7b\"country\": \"China\"\x7d" = some (.obj [("country", .s "China")]) := by decide
example : jsonParse "hello" = none := by decide
example : jsonParse "licenses" = none := by decide
example : jsonParse "2016" = some (.i 2016) := by decide
example : jsonParse "\x7b'abc': 1" = none := by decide

/-! ## ckan_to_frictionless.py -/

def resource_mapping : List (String × String) :=
  [("size", "bytes"), ("mimetype", "mediatype"), ("url", "path")]

def resource_keys_to_remove : List String :=
  ["package_id", "position", "datastore_active", "state"]

/-- `for key in keys: if key in d: del d[key]` (also models
`d.pop(key, None)` loops). -/
def dropKeys (ks : List String) (r : Record) : Record :=
  ks.foldl pyDel r

/-- One value of the resource unjsonify loop: strings that (stripped)
start with `{` or `[` are `json.loads`-ed, keeping the original
(unstripped) string on parse failure; everything else is untouched. -/
def unjsonifyVal (v : JValue) : JValue :=
  match v with
  | .s str =>
    if startsWithChar (pyStrip str) '{' || startsWithChar (pyStrip str) '[' then
      match jsonParse (pyStrip str) with
      | some j => j
      | none => .s str
    else .s str
  | _ => v

def unjsonifyStep (r : Record) : Record :=
  r.map fun kv => (kv.1, unjsonifyVal kv.2)

/-- The resource key-rename loop: `d[new] = d[old]; del d[old]` for each
mapping entry whose old key is present. -/
def remapStep (r : Record) : Record :=
  resource_mapping.foldl
    (fun acc p => if pyHas acc p.1 then pyDel (pySet acc p.2 (pyGetD acc p.1)) p.1 else acc) r

/-- `for key in list(d.keys()): if d[key] is None: del d[key]`. -/
def stripNulls (r : Record) : Record :=
  r.filter fun kv => kv.2 ≠ JValue.null

/-- `ckan_to_frictionless.resource` (catalogResourceToPackage). -/
def resource (ckandict : Record) : Record :=
  stripNulls (remapStep (unjsonifyStep (dropKeys resource_keys_to_remove ckandict)))

example :
    resource [("url", .s "http://www.somewhere.com/data.csv"), ("size", .i 110),
      ("mimetype", .s "text/csv")] =
      [("bytes", .i 110), ("mediatype", .s "text/csv"),
       ("path", .s "http://www.somewhere.com/data.csv")] := by decide

example :
    resource [("schema", .s "\x7b\"fields\": [\x7b\"name\": \"abc\", \"type\": \"string\"\x7d]\x7d"),
      ("x", .s "\x7b'abc': 1")] =
      [("schema", .obj [("fields", .arr [.obj [("name", .s "abc"), ("type", .s "string")]])]),
       ("x", .s "\x7b'abc': 1")] := by decide

example :
    resource [("package_id", .s "xxx"), ("position", .i 2), ("datastore_active", .b true),
      ("state", .s "active")] = [] := by decide

example : resource [("abc", .s "xxx"), ("size", .null), ("xyz", .null)] = [("abc", .s "xxx")] := by
  decide

def dataset_keys_to_remove : List String := ["state"]

def dataset_mapping : List (String × String) :=
  [("notes", "description"), ("url", "homepage")]

/-- The caught body of the extras-expansion `try`:
`value = json.loads(value)` keeps the raw value both on
`JSONDecodeError` (malformed string) and on `TypeError` (non-string). -/
def loadsTry (v : JValue) : JValue :=
  match v with
  | .s str =>
    match jsonParse str with
    | some j => j
    | none => v
  | _ => v

/-- The extras-expansion loop body over `ckandict['extras']`:
`key = extra['key']; value = extra['value']; try loads; outdict[key] = value`.
A non-string `'key'` value would create a non-string dict key, which the
string-keyed record model cannot carry (garbage-in, spec §7); it is
mapped to `TypeError`. -/
def expandItems : List JValue → Record → Except PyErr Record
  | [], out => .ok out
  | extra :: rest, out => do
    let kv ← pySub extra "key"
    match kv with
    | .s k => do
      let v ← pySub extra "value"
      expandItems rest (pySet out k (loadsTry v))
    | _ => .error .typeError

/-- Step 1 of `dataset`: expand `extras` into top-level keys, then
delete `extras`. -/
def expandStep (ckandict : Record) : Except PyErr Record :=
  if pyHas ckandict "extras" then do
    let items ← pyIter (pyGetD ckandict "extras")
    let out ← expandItems items ckandict
    pure (pyDel out "extras")
  else pure ckandict

/-- Step 2 of `dataset`: the rename loop checks and reads the
*original* `ckandict` (`if key in ckandict: outdict[value] = ckandict[key]`)
while writing/deleting on the running output. -/
def renameStep (ckandict cur : Record) : Record :=
  dataset_mapping.foldl
    (fun acc p =>
      if pyHas ckandict p.1 then pyDel (pySet acc p.2 (pyGetD ckandict p.1)) p.1 else acc) cur

def tagNames : List JValue → Except PyErr (List JValue)
  | [] => .ok []
  | t :: rest => do
    let n ← pySub t "name"
    let ns ← tagNames rest
    pure (n :: ns)

/-- Step 3 of `dataset`: `tags` (read from the original input) become
`keywords` (the list of `tag['name']`), and `tags` is deleted. -/
def tagsStep (ckandict cur : Record) : Except PyErr Record :=
  if pyHas ckandict "tags" then do
    let tags ← pyIter (pyGetD ckandict "tags")
    let names ← tagNames tags
    pure (pyDel (pySet cur "keywords" (.arr names)) "tags")
  else pure cur

/-- `d[k].append(v)` where `d[k]` is a list (all call sites have just
set the key to a list, so the fall-through is unreachable). -/
def appendAt (r : Record) (k : String) (v : JValue) : Record :=
  match pyGet r k with
  | some (.arr l) => pySet r k (.arr (l ++ [v]))
  | _ => r

/-- The author half of the contributors synthesis:
`if 'author' in outdict and outdict['author']: ... append(contrib)`. -/
def contribAuthor (cur1 : Record) : Record :=
  if pyHas cur1 "author" && pyTruthy (pyGetD cur1 "author") then
    appendAt cur1 "contributors"
      (.obj ([("title", pyGetD cur1 "author"), ("role", .s "author")] ++
        match pyGet cur1 "author_email" with
        | some e => [("email", e)]
        | none => []))
  else cur1

/-- The maintainer half of the contributors synthesis. -/
def contribMaintainer (cur2 : Record) : Record :=
  if pyHas cur2 "maintainer" && pyTruthy (pyGetD cur2 "maintainer") then
    appendAt cur2 "contributors"
      (.obj ([("title", pyGetD cur2 "maintainer"), ("role", .s "maintainer")] ++
        match pyGet cur2 "maintainer_email" with
        | some e => [("email", e)]
        | none => []))
  else cur2

/-- Step 4 of `dataset`: synthesize `contributors` from
author/maintainer unless a truthy `contributors` already exists; always
pop the four source keys. -/
def contribStep (cur : Record) : Record :=
  dropKeys ["author", "author_email", "maintainer", "maintainer_email"]
    (if !(pyHas cur "contributors" && pyTruthy (pyGetD cur "contributors")) &&
        (pyHas cur "author" || pyHas cur "maintainer") then
      contribMaintainer (contribAuthor (pySet cur "contributors" (.arr [])))
    else cur)

/-- `[resource(res) for res in ...]`: `dict(res)` of a non-dict element
is garbage-in (spec §7), mapped to `TypeError`. -/
def convResources : List JValue → Except PyErr (List JValue)
  | [] => .ok []
  | r :: rest =>
    match r with
    | .obj kvs => do
      let rs ← convResources rest
      pure (.obj (resource kvs) :: rs)
    | _ => .error .typeError

/-- Step 5 of `dataset`: convert each resource in place. -/
def resourcesStep (cur : Record) : Except PyErr Record :=
  if pyHas cur "resources" then do
    let items ← pyIter (pyGetD cur "resources")
    let rs ← convResources items
    pure (pySet cur "resources" (.arr rs))
  else pure cur

/-- `outdict['licenses'][0][field] = v`: in-place update of the first
license object.  Both fall-throughs are unreachable at the call sites:
the guard key's presence forced `licenses` to `[{}]` just before. -/
def setLic0 (r : Record) (field : String) (v : JValue) : Record :=
  match pyGet r "licenses" with
  | some (.arr (l0 :: rest)) =>
    match l0 with
    | .obj kvs => pySet r "licenses" (.arr (.obj (pySet kvs field v) :: rest))
    | _ => r
  | _ => r

/-- The `for key in [...]: if key in outdict: outdict['licenses'] = [{}]; break`
loop of the license synthesis. -/
def licSynthInit (cur : Record) : Record :=
  if pyHas cur "license_id" || pyHas cur "license_title" || pyHas cur "license_url" then
    pySet cur "licenses" (.arr [.obj []])
  else cur

/-- `if key in outdict: outdict['licenses'][0][field] = outdict[key]`. -/
def licSynthField (key field : String) (c : Record) : Record :=
  if pyHas c key then setLic0 c field (pyGetD c key) else c

/-- Step 6 of `dataset`: synthesize `licenses` from
license_id/license_title/license_url and pop the three source keys. -/
def licSynthStep (cur : Record) : Record :=
  dropKeys ["license_id", "license_title", "license_url"]
    (licSynthField "license_url" "path"
      (licSynthField "license_title" "title"
        (licSynthField "license_id" "name" (licSynthInit cur))))

/-- `item.values()`: dict method; anything else raises
`AttributeError`. -/
def pyValues (v : JValue) : Except PyErr (List JValue) :=
  match v with
  | .obj kvs => .ok (kvs.map Prod.snd)
  | _ => .error .attributeError

/-- The scan of the original input's extras for an entry carrying a
`'licenses'` field value.  On a hit it runs
`json.loads(dict(item).get('value'))` *outside any try/except* — a
malformed string raises `JSONDecodeError` (modelled `.jsonError`) and a
non-string raises `TypeError` — and then `.get('licenses')`, an
`AttributeError` when the parse result is not a dict. -/
def licFind : List JValue → Except PyErr (Option JValue)
  | [] => .ok none
  | item :: rest => do
    let vals ← pyValues item
    if vals.any (fun v => v == JValue.s "licenses") then do
      let lv ← pyGetMeth item "value"
      match lv with
      | .s str =>
        match jsonParse str with
        | some parsed => do
          let ll ← pyGetMeth parsed "licenses"
          pure (some ll)
        | none => .error .jsonError
      | _ => .error .typeError
    else licFind rest

/-- `'name' in license` / `license['name']` / `license_out[field] = ...`
for one field of the license-normalization loop body. -/
def licField (license : JValue) (f : String) (acc : List (String × JValue)) :
    Except PyErr (List (String × JValue)) := do
  let isIn ← pyIn (.s f) license
  if isIn then do
    let v ← pySub license f
    pure (pySet acc f v)
  else pure acc

/-- The license-normalization loop: build `{name?, title?, path?}` and
append it to `outdict['licenses']` unless already present (Python `in`
uses `==`).  The `licenses` key is read with a bare subscript
(`KeyError` if absent) and the catch-all arm is only reached when the
membership test already succeeded on a list. -/
def licAppendAll : List JValue → Record → Except PyErr Record
  | [], cur => .ok cur
  | license :: rest, cur => do
    let lo1 ← licField license "name" []
    let lo2 ← licField license "title" lo1
    let lo3 ← licField license "path" lo2
    let licv ←
      match pyGet cur "licenses" with
      | some v => Except.ok v
      | none => Except.error (PyErr.keyError "licenses")
    let isIn ← pyIn (.obj lo3) licv
    match licv, isIn with
    | .arr l, false => licAppendAll rest (pySet cur "licenses" (.arr (l ++ [.obj lo3])))
    | _, _ => licAppendAll rest cur

/-- Step 7 of `dataset`: the additional-licenses-from-extras block
(source lines 171–195), driven by the *original* input's extras. -/
def licScanStep (ckandict cur : Record) : Except PyErr Record :=
  if pyTruthy (pyGetD ckandict "extras") then do
    let items ← pyIter (pyGetD ckandict "extras")
    let found ← licFind items
    match found with
    | none => pure cur
    | some licenses_list => do
      let els ← pyIter licenses_list
      licAppendAll els cur
  else pure cur

/-- `ckan_to_frictionless.dataset` (catalogDatasetToPackage). -/
def dataset (ckandict : Record) : Except PyErr Record := do
  let o1 ← expandStep ckandict
  let o2 := renameStep ckandict o1
  let o3 ← tagsStep ckandict o2
  let o4 := contribStep o3
  let o5 ← resourcesStep o4
  let o6 := licSynthStep o5
  let o7 ← licScanStep ckandict o6
  pure (stripNulls (dropKeys dataset_keys_to_remove o7))

example :
    dataset [("extras", .arr [.obj [("key", .s "years"), ("value", .s "[2015, 2016]")],
      .obj [("key", .s "last_year"), ("value", .i 2016)],
      .obj [("key", .s "location"), ("value", .s "\x7b\"country\": \"China\"\x7d")]])] =
      .ok [("years", .arr [.i 2015, .i 2016]), ("last_year", .i 2016),
        ("location", .obj [("country", .s "China")])] := by decide

example :
    dataset [("notes", .s "Country, regional and world GDP"), ("url", .s "https://datopian.com")] =
      .ok [("description", .s "Country, regional and world GDP"),
        ("homepage", .s "https://datopian.com")] := by decide

example :
    dataset [("license_id", .s "cc-by"), ("license_title", .s "Creative Commons Attribution"),
      ("license_url", .s "http://x")] =
      .ok [("licenses", .arr [.obj [("name", .s "cc-by"),
        ("title", .s "Creative Commons Attribution"), ("path", .s "http://x")]])] := by decide

example :
    dataset [("tags", .arr [.obj [("display_name", .s "economy"), ("name", .s "economy"),
        ("state", .s "active")], .obj [("name", .s "worldbank")]])] =
      .ok [("keywords", .arr [.s "economy", .s "worldbank"])] := by decide

example :
    dataset [("author", .s "World Bank and OECD"), ("author_email", .s "someone@worldbank.org"),
      ("maintainer", .s "Datopian"), ("maintainer_email", .s "helloxxx@datopian.com")] =
      .ok [("contributors", .arr [
        .obj [("title", .s "World Bank and OECD"), ("role", .s "author"),
          ("email", .s "someone@worldbank.org")],
        .obj [("title", .s "Datopian"), ("role", .s "maintainer"),
          ("email", .s "helloxxx@datopian.com")]])] := by decide

example :
    dataset [("contributors", .arr [.obj [("title", .s "Datopians")]]),
      ("author", .s "World Bank and OECD")] =
      .ok [("contributors", .arr [.obj [("title", .s "Datopians")]])] := by decide

example :
    dataset [("id", .s "12312"), ("title", .s "title here"), ("format", .null)] =
      .ok [("id", .s "12312"), ("title", .s "title here")] := by decide

example :
    dataset [("license_id", .s "odc-odbl"),
      ("extras", .arr [.obj [("key", .s "licenses"),
        ("value", .s "\x7b\"licenses\": [\x7b\"name\": \"odc-by\"\x7d]\x7d")]])] =
      .ok [("licenses", .arr [.obj [("name", .s "odc-odbl")], .obj [("name", .s "odc-by")]])] := by
  decide

example :
    dataset [("extras", .arr [.obj [("key", .s "licenses"),
      ("value", .s "[\x7b\"name\": \"cc-by\"\x7d]")]])] = .error .attributeError := by decide

/-! ## frictionless_to_ckan.py

`FrictionlessToCKAN.package` starts from the *shallow* copy
`outdict = dict(fddict)`: nested values — in particular a list stored
under `extras` — stay shared with the input.  The state below threads,
next to the running output, the current contents of the input's own
extras list object (`inL`) and whether `outdict['extras']` still
references that object (`alias`), so that the in-place
`outdict['extras'].append(...)` calls are modelled faithfully,
including their visibility through the input. -/

def package_mapping : List (String × String) :=
  [("description", "notes"), ("homepage", "url")]

/-- `FrictionlessToCKAN.ckan_package_keys` (source lines 27–47). -/
def ckan_package_keys : List String :=
  ["author", "author_email", "groups", "license_id", "maintainer", "maintainer_email",
   "name", "notes", "owner_org", "private", "relationships_as_object",
   "relationships_as_subject", "resources", "state", "tags", "title", "type", "url", "version"]

structure PSt where
  out : Record
  inL : Option (List JValue)
  aliased : Bool
deriving DecidableEq, Repr

/-- Sequencing with sticky errors, keeping the state reached when the
exception was raised (Python mutations before a raise persist). -/
def pseq (r : PSt × Option PyErr) (f : PSt → PSt × Option PyErr) : PSt × Option PyErr :=
  match r with
  | (st, none) => f st
  | (st, some e) => (st, some e)

/-- `outdict = dict(fddict)`: shallow copy; a list under `extras` is
shared with the input. -/
def pkgInit (fddict : Record) : PSt :=
  let inL : Option (List JValue) :=
    match pyGet fddict "extras" with
    | some (.arr l) => some l
    | _ => none
  { out := fddict, inL := inL, aliased := inL.isSome }

/-- `if k in fddict: outdict[v] = fddict[k]; del outdict[k]` for the
package rename table. -/
def pkgRename (fddict : Record) (st : PSt) : PSt :=
  { st with
    out := package_mapping.foldl
      (fun acc p =>
        if pyHas fddict p.1 then pyDel (pySet acc p.2 (pyGetD fddict p.1)) p.1 else acc)
      st.out }

/-- `if not outdict.get('extras'): outdict['extras'] = []` followed by
`outdict['extras'].append(entry)`.  Replacing a falsy `extras` installs
a fresh list (breaking the aliasing with the input); appending to a
still-aliased list is visible through the input (`inL`); `.append` on a
truthy non-list raises `AttributeError`. -/
def appendExtras2 (st1 : PSt) (entry : JValue) : PSt × Option PyErr :=
  match pyGet st1.out "extras" with
  | some (.arr l) =>
    ({ st1 with
        out := pySet st1.out "extras" (.arr (l ++ [entry])),
        inL := if st1.aliased then st1.inL.map (· ++ [entry]) else st1.inL }, none)
  | _ => (st1, some .attributeError)

def appendExtras (st : PSt) (entry : JValue) : PSt × Option PyErr :=
  appendExtras2
    (if !pyTruthy (pyGetD st.out "extras") then
      { st with out := pySet st.out "extras" (.arr []), aliased := false }
    else st) entry

/-- `outdict['extras'] = []` + `outdict['extras'].append(entry)` on the
single-contributor path: always a fresh list, never aliased. -/
def setFreshExtras (st : PSt) (entry : JValue) : PSt :=
  { st with out := pySet st.out "extras" (.arr [entry]), aliased := false }

/-- `del outdict[k]` wrapped around a step result, skipped when the
step raised. -/
def delKeyStep (k : String) (r : PSt × Option PyErr) : PSt × Option PyErr :=
  match r with
  | (st3, none) => ({ st3 with out := pyDel st3.out k }, none)
  | (st3, some e) => (st3, some e)

/-- The overflow-and-delete tail of the licenses collapse. -/
def pkgLicensesTail (st2 : PSt) : PSt × Option PyErr :=
  match pyLen (pyGetD st2.out "licenses") with
  | .error e => (st2, some e)
  | .ok n =>
    delKeyStep "licenses"
      (if 1 < n then appendExtras st2 (.obj [("licenses", pyGetD st2.out "licenses")])
      else (st2, none))

/-- Licenses collapse (source lines 78–86). -/
def pkgLicenses (st : PSt) : PSt × Option PyErr :=
  if pyTruthy (pyGetD st.out "licenses") then
    match pySubIdx (pyGetD st.out "licenses") 0 with
    | .error e => (st, some e)
    | .ok l0 =>
      match pySub l0 "type" with
      | .error e => (st, some e)
      | .ok tid =>
        match pyGetMeth l0 "title" with
        | .error e => ({ st with out := pySet st.out "license_id" tid }, some e)
        | .ok titleV =>
          pkgLicensesTail
            (if pyTruthy titleV then
              { st with out := pySet (pySet st.out "license_id" tid) "license_title" titleV }
            else { st with out := pySet st.out "license_id" tid })
  else (st, none)

/-- The overflow-and-delete tail of the sources collapse. -/
def pkgSourcesTail (st3 : PSt) : PSt × Option PyErr :=
  match pyLen (pyGetD st3.out "sources") with
  | .error e => (st3, some e)
  | .ok n =>
    delKeyStep "sources"
      (if 1 < n then appendExtras st3 (.obj [("sources", pyGetD st3.out "sources")])
      else (st3, none))

/-- The sources collapse from the `.get('path')` read onward. -/
def pkgSourcesCont (s0 : JValue) (st2 : PSt) : PSt × Option PyErr :=
  match pyGetMeth s0 "path" with
  | .error e => (st2, some e)
  | .ok pathV =>
    pkgSourcesTail
      (if pyTruthy pathV then { st2 with out := pySet st2.out "url" pathV } else st2)

/-- Sources collapse (source lines 88–98). -/
def pkgSources (st : PSt) : PSt × Option PyErr :=
  if pyTruthy (pyGetD st.out "sources") then
    match pySubIdx (pyGetD st.out "sources") 0 with
    | .error e => (st, some e)
    | .ok s0 =>
      match pySub s0 "title" with
      | .error e => (st, some e)
      | .ok titleV =>
        match pyGetMeth s0 "email" with
        | .error e => ({ st with out := pySet st.out "author" titleV }, some e)
        | .ok emailV =>
          pkgSourcesCont s0
            (if pyTruthy emailV then
              { st with out := pySet (pySet st.out "author" titleV) "author_email" emailV }
            else { st with out := pySet st.out "author" titleV })
  else (st, none)

def contribFlagKeys : List String := ["path", "organisation", "role"]

/-- The tail of the contributors collapse (from the
`len(outdict['contributors']) > 1` test to `del outdict['contributors']`,
source lines 105–120).  On the single-contributor path the `extras`
append sits *inside* the `if not outdict.get('extras')` guard: with a
truthy `extras` already present nothing is appended. -/
def pkgContribOverflow (c0 : JValue) (st2 : PSt) : PSt × Option PyErr :=
  match pyLen (pyGetD st2.out "contributors") with
  | .error e => (st2, some e)
  | .ok n =>
    delKeyStep "contributors"
      (if 1 < n then
        appendExtras st2 (.obj [("contributors", pyGetD st2.out "contributors")])
      else
        match c0 with
        | .obj kvs =>
          if kvs.any (fun kv => kv.1 ∈ contribFlagKeys) &&
              !pyTruthy (pyGetD st2.out "extras") then
            (setFreshExtras st2 (.obj [("contributors", pyGetD st2.out "contributors")]),
              none)
          else (st2, none)
        | _ => (st2, none))

/-- Contributors collapse (source lines 100–120).  The first
contributor is a dict whenever the earlier `.get('email')` succeeded,
so `pkgContribOverflow`'s catch-all arm is dead. -/
def pkgContrib (st : PSt) : PSt × Option PyErr :=
  if pyTruthy (pyGetD st.out "contributors") then
    match pySubIdx (pyGetD st.out "contributors") 0 with
    | .error e => (st, some e)
    | .ok c0 =>
      match pySub c0 "title" with
      | .error e => (st, some e)
      | .ok titleV =>
        match pyGetMeth c0 "email" with
        | .error e => ({ st with out := pySet st.out "maintainer" titleV }, some e)
        | .ok emailV =>
          pkgContribOverflow c0
            (if pyTruthy emailV then
              { st with
                out := pySet (pySet st.out "maintainer" titleV) "maintainer_email" emailV }
            else { st with out := pySet st.out "maintainer" titleV })
  else (st, none)

/-- Split a character list into space-separated words. -/
def wordsAux : List Char → List Char → List (List Char)
  | [], acc => if acc.isEmpty then [] else [acc.reverse]
  | c :: cs, acc =>
    if c == ' ' then
      if acc.isEmpty then wordsAux cs [] else acc.reverse :: wordsAux cs []
    else wordsAux cs (c :: acc)

def joinHyphen : List (List Char) → List Char
  | [] => []
  | [w] => w
  | w :: ws => w ++ '-' :: joinHyphen ws

/-- The external slugify collaborator (spec §6): lowercase,
non-alphanumeric runs collapsed to single hyphens. -/
def slugifyModel (s : String) : String :=
  ⟨joinHyphen (wordsAux (s.data.map fun c => if c.isAlphanum then c.toLower else ' ') [])⟩

/-- Python `str.lower()`. -/
def pyLower (s : String) : String :=
  ⟨s.data.map Char.toLower⟩

/-- `{'name': slugify.slugify(keyword).lower()}` — a non-string keyword
is garbage-in (spec §7), mapped to `TypeError`. -/
def kwTags : List JValue → Except PyErr (List JValue)
  | [] => .ok []
  | kw :: rest =>
    match kw with
    | .s str => do
      let ts ← kwTags rest
      pure (.obj [("name", .s (pyLower (slugifyModel str)))] :: ts)
    | _ => .error .typeError

/-- Keywords expansion (source lines 122–127). -/
def pkgKeywords (st : PSt) : PSt × Option PyErr :=
  if pyTruthy (pyGetD st.out "keywords") then
    match pyIter (pyGetD st.out "keywords") with
    | .error e => (st, some e)
    | .ok items =>
      match kwTags items with
      | .error e => (st, some e)
      | .ok tags =>
        ({ st with out := pyDel (pySet st.out "tags" (.arr tags)) "keywords" }, none)
  else (st, none)

/-- The pipeline up to (not including) the contributors collapse:
copy, rename, licenses collapse, sources collapse. -/
def pkgPre (fddict : Record) : PSt × Option PyErr :=
  pseq (pseq (pkgRename fddict (pkgInit fddict), none) pkgLicenses) pkgSources

/-- `FrictionlessToCKAN.package` with the final state it reaches. -/
def packageRun (fddict : Record) : PSt × Option PyErr :=
  pseq (pseq (pkgPre fddict) pkgContrib) pkgKeywords

/-- The list the overflow append starts from: the current truthy extras
list, or a fresh empty one when extras is absent or falsy. -/
def extrasBase : Option JValue → List JValue
  | some (.arr l) => if l.isEmpty then [] else l
  | _ => []

/-- `FrictionlessToCKAN.package` (packageToCatalog, dataset direction). -/
def package (fddict : Record) : Except PyErr Record :=
  match packageRun fddict with
  | (st, none) => .ok st.out
  | (_, some e) => .error e

/-- The input record as observable after `package` returns (or raises):
if the input held a list under `extras`, that shared object may have
been appended to in place. -/
def inputAfter (fddict : Record) : Record :=
  match (packageRun fddict).1.inL with
  | some l => pySet fddict "extras" (.arr l)
  | none => fddict

example :
    package [("name", .s "gdp"), ("id", .s "xxxx"), ("title", .s "Countries GDP"),
      ("version", .s "1.0")] =
      .ok [("name", .s "gdp"), ("id", .s "xxxx"), ("title", .s "Countries GDP"),
        ("version", .s "1.0")] := by decide

example :
    package [("description", .s "Country GDP."), ("homepage", .s "https://datopian.com")] =
      .ok [("notes", .s "Country GDP."), ("url", .s "https://datopian.com")] := by decide

example :
    package [("licenses", .arr [.obj [("type", .s "cc"), ("title", .s "T")]])] =
      .ok [("license_id", .s "cc"), ("license_title", .s "T")] := by decide

example :
    package [("licenses", .arr [.obj [("name", .s "odc-odbl")]])] =
      .error (.keyError "type") := by decide

example :
    package [("contributors", .arr [.obj [("title", .s "John Smith")]])] =
      .ok [("maintainer", .s "John Smith")] := by decide

example :
    package [("contributors", .arr [.obj [("title", .s "A"), ("role", .s "maintainer")]])] =
      .ok [("maintainer", .s "A"),
        ("extras", .arr [.obj [("contributors",
          .arr [.obj [("title", .s "A"), ("role", .s "maintainer")]])]])] := by decide

example :
    package [("keywords", .arr [.s "economy!!!", .s "World Bank"])] =
      .ok [("tags", .arr [.obj [("name", .s "economy")], .obj [("name", .s "world-bank")]])] := by
  decide

/-- Where a surviving resource key ends up after the rename table
(size to bytes, mimetype to mediatype, url to path; other keys keep
their name). -/
def renameTarget (k : String) : String :=
  if k = "size" then "bytes"
  else if k = "mimetype" then "mediatype"
  else if k = "url" then "path"
  else k

/-- Whether the resource rename loop overwrites the binding at `k`
(the rename of url/size/mimetype writes onto path/bytes/mediatype). -/
def overwrittenByRemap (r : Record) (k : String) : Bool :=
  (k == "bytes" && pyHas r "size") || (k == "mediatype" && pyHas r "mimetype") ||
    (k == "path" && pyHas r "url")

/-- The author contributor object `dataset` synthesizes (read off the
record at the contributors step). -/
def authEntry (m : Record) : JValue :=
  .obj ([("title", pyGetD m "author"), ("role", .s "author")] ++
    match pyGet m "author_email" with
    | some e => [("email", e)]
    | none => [])

/-- The maintainer contributor object `dataset` synthesizes. -/
def maintEntry (m : Record) : JValue :=
  .obj ([("title", pyGetD m "maintainer"), ("role", .s "maintainer")] ++
    match pyGet m "maintainer_email" with
    | some e => [("email", e)]
    | none => [])

/-- Whether a record's `extras` key holds a list (the only case in
which `FrictionlessToCKAN.package`'s shallow `dict()` copy shares a
mutable object with the caller's record). -/
def extrasIsList (d : Record) : Bool :=
  match pyGet d "extras" with
  | some (.arr _) => true
  | _ => false

/-- "The second tracked list extends the first": the relation each
`package` step preserves on the input's shared extras-list contents. -/
def inLExt (a b : Option (List JValue)) : Prop :=
  (a = none → b = none) ∧ ∀ L, a = some L → ∃ es, b = some (L ++ es)

/-! ## Record-operation lemmas -/

theorem pyGet_pySet_same (r : Record) (k : String) (v : JValue) :
    pyGet (pySet r k v) k = some v := by
  induction r with
  | nil => simp [pySet, pyGet]
  | cons kv rest ih =>
    obtain ⟨k', v'⟩ := kv
    by_cases h : k' = k
    · subst h; simp [pySet, pyGet]
    · simp [pySet, pyGet, h, ih]

theorem pyGet_pySet_other (r : Record) {k k' : String} (v : JValue) (h : k' ≠ k) :
    pyGet (pySet r k v) k' = pyGet r k' := by
  induction r with
  | nil => simp [pySet, pyGet, Ne.symm h]
  | cons kv rest ih =>
    obtain ⟨k'', v'⟩ := kv
    by_cases hk : k'' = k
    · subst hk
      simp [pySet, pyGet, Ne.symm h]
    · simp [pySet, pyGet, hk, ih]

theorem pyGet_pyDel_same (r : Record) (k : String) : pyGet (pyDel r k) k = none := by
  induction r with
  | nil => simp [pyDel, pyGet]
  | cons kv rest ih =>
    obtain ⟨k', v'⟩ := kv
    by_cases h : k' = k
    · subst h; simpa [pyDel, List.filter_cons] using ih
    · simpa [pyDel, List.filter_cons, h, pyGet] using ih

theorem pyGet_pyDel_other (r : Record) {k k' : String} (h : k' ≠ k) :
    pyGet (pyDel r k) k' = pyGet r k' := by
  induction r with
  | nil => simp [pyDel, pyGet]
  | cons kv rest ih =>
    obtain ⟨k'', v'⟩ := kv
    by_cases hk : k'' = k
    · subst hk
      simpa [pyDel, List.filter_cons, pyGet, Ne.symm h] using ih
    · by_cases hk' : k'' = k'
      · subst hk'; simp [pyDel, List.filter_cons, hk, pyGet]
      · simpa [pyDel, List.filter_cons, hk, hk', pyGet] using ih

theorem pySet_pySet_same (r : Record) (k : String) (v w : JValue) :
    pySet (pySet r k v) k w = pySet r k w := by
  induction r with
  | nil => simp [pySet]
  | cons kv rest ih =>
    obtain ⟨k', v'⟩ := kv
    by_cases h : k' = k
    · subst h; simp [pySet]
    · simp [pySet, h, ih]

theorem pyGet_dropKeys_not_mem :
    ∀ (ks : List String) (r : Record) {k : String}, k ∉ ks →
      pyGet (dropKeys ks r) k = pyGet r k := by
  intro ks
  induction ks with
  | nil => intro r k _; simp [dropKeys]
  | cons k' ks ih =>
    intro r k h
    have h1 : k ≠ k' := fun hh => h (hh ▸ List.mem_cons_self k' ks)
    have h2 : k ∉ ks := fun hh => h (List.mem_cons_of_mem _ hh)
    calc pyGet (dropKeys (k' :: ks) r) k
        = pyGet (dropKeys ks (pyDel r k')) k := by simp [dropKeys]
      _ = pyGet (pyDel r k') k := ih _ h2
      _ = pyGet r k := pyGet_pyDel_other r h1

theorem pyGet_pyDel_none (r : Record) {k : String} (k' : String) (h : pyGet r k = none) :
    pyGet (pyDel r k') k = none := by
  by_cases hk : k = k'
  · subst hk; exact pyGet_pyDel_same r k
  · rw [pyGet_pyDel_other r hk]; exact h

theorem pyGet_dropKeys_none :
    ∀ (ks : List String) (r : Record) {k : String}, pyGet r k = none →
      pyGet (dropKeys ks r) k = none := by
  intro ks
  induction ks with
  | nil => intro r k h; simpa [dropKeys] using h
  | cons k' ks ih =>
    intro r k h
    have hstep : dropKeys (k' :: ks) r = dropKeys ks (pyDel r k') := by simp [dropKeys]
    rw [hstep]
    exact ih _ (pyGet_pyDel_none r k' h)

theorem pyGet_dropKeys_mem :
    ∀ (ks : List String) (r : Record) {k : String}, k ∈ ks →
      pyGet (dropKeys ks r) k = none := by
  intro ks
  induction ks with
  | nil => intro r k h; cases h
  | cons k' ks ih =>
    intro r k h
    have hstep : dropKeys (k' :: ks) r = dropKeys ks (pyDel r k') := by simp [dropKeys]
    rw [hstep]
    rcases List.mem_cons.mp h with h | h
    · subst h; exact pyGet_dropKeys_none ks _ (pyGet_pyDel_same r k)
    · exact ih _ h

theorem pyGet_stripNulls_some (r : Record) {k : String} {v : JValue}
    (h : pyGet r k = some v) (hv : v ≠ .null) : pyGet (stripNulls r) k = some v := by
  induction r with
  | nil => simp [pyGet] at h
  | cons kv rest ih =>
    obtain ⟨k', v'⟩ := kv
    by_cases hk : k' = k
    · subst hk
      simp [pyGet] at h
      subst h
      simp [stripNulls, List.filter_cons, hv, pyGet]
    · simp [pyGet, hk] at h
      by_cases hv' : v' = JValue.null
      · subst hv'; simpa [stripNulls, List.filter_cons] using ih h
      · simpa [stripNulls, List.filter_cons, hv', pyGet, hk] using ih h

theorem pyGet_stripNulls_none (r : Record) {k : String} (h : pyGet r k = none) :
    pyGet (stripNulls r) k = none := by
  induction r with
  | nil => simp [stripNulls, pyGet]
  | cons kv rest ih =>
    obtain ⟨k', v'⟩ := kv
    by_cases hk : k' = k
    · subst hk; simp [pyGet] at h
    · simp [pyGet, hk] at h
      by_cases hv' : v' = JValue.null
      · subst hv'; simpa [stripNulls, List.filter_cons] using ih h
      · simpa [stripNulls, List.filter_cons, hv', pyGet, hk] using ih h

theorem pyHas_eq (r : Record) (k : String) : pyHas r k = (pyGet r k).isSome := rfl

theorem pyGetD_eq (r : Record) (k : String) : pyGetD r k = (pyGet r k).getD .null := rfl

/-- `dataset` as an explicit cascade of its steps. -/
theorem dataset_decomp (d : Record) :
    dataset d =
      match expandStep d with
      | .error e => .error e
      | .ok o1 =>
        match tagsStep d (renameStep d o1) with
        | .error e => .error e
        | .ok o3 =>
          match resourcesStep (contribStep o3) with
          | .error e => .error e
          | .ok o5 =>
            match licScanStep d (licSynthStep o5) with
            | .error e => .error e
            | .ok o7 => .ok (stripNulls (dropKeys dataset_keys_to_remove o7)) := by
  cases hE : expandStep d with
  | error e => simp [dataset, hE, Bind.bind, Except.bind]
  | ok o1 =>
    cases hT : tagsStep d (renameStep d o1) with
    | error e => simp [dataset, hE, hT, Bind.bind, Except.bind]
    | ok o3 =>
      cases hR : resourcesStep (contribStep o3) with
      | error e => simp [dataset, hE, hT, hR, Bind.bind, Except.bind]
      | ok o5 =>
        cases hL : licScanStep d (licSynthStep o5) with
        | error e => simp [dataset, hE, hT, hR, hL, Bind.bind, Except.bind]
        | ok o7 => simp [dataset, hE, hT, hR, hL, Bind.bind, Except.bind, Pure.pure, Except.pure]

/-- The rename-loop pattern shared by `renameStep` and `pkgRename`
leaves every key outside the table untouched. -/
theorem pyGet_renameLoop (src : Record) :
    ∀ (ps : List (String × String)) (cur : Record) {k : String},
      (∀ p ∈ ps, k ≠ p.1 ∧ k ≠ p.2) →
      pyGet (ps.foldl
        (fun acc p =>
          if pyHas src p.1 then pyDel (pySet acc p.2 (pyGetD src p.1)) p.1 else acc) cur) k =
        pyGet cur k := by
  intro ps
  induction ps with
  | nil => intro cur k _; simp
  | cons p ps ih =>
    intro cur k h
    have hp := h p (List.mem_cons_self p ps)
    have hrest : ∀ q ∈ ps, k ≠ q.1 ∧ k ≠ q.2 := fun q hq => h q (List.mem_cons_of_mem _ hq)
    simp only [List.foldl_cons]
    rw [ih _ hrest]
    by_cases hc : pyHas src p.1
    · simp only [hc, if_true]
      rw [pyGet_pyDel_other _ hp.1, pyGet_pySet_other _ _ hp.2]
    · simp [hc]

theorem pyGet_renameStep (d cur : Record) {k : String}
    (h1 : k ≠ "notes") (h2 : k ≠ "url") (h3 : k ≠ "description") (h4 : k ≠ "homepage") :
    pyGet (renameStep d cur) k = pyGet cur k := by
  unfold renameStep
  refine pyGet_renameLoop d dataset_mapping cur ?_
  intro p hp
  simp only [dataset_mapping, List.mem_cons, List.not_mem_nil, or_false] at hp
  rcases hp with rfl | rfl
  · exact ⟨h1, h3⟩
  · exact ⟨h2, h4⟩

theorem pyGet_tagsStep (d cur cur' : Record) {k : String} (h : tagsStep d cur = .ok cur')
    (hk1 : k ≠ "keywords") (hk2 : k ≠ "tags") : pyGet cur' k = pyGet cur k := by
  unfold tagsStep at h
  by_cases ht : pyHas d "tags"
  · cases hI : pyIter (pyGetD d "tags") with
    | error e => simp [ht, hI, Bind.bind, Except.bind] at h
    | ok items =>
      cases hN : tagNames items with
      | error e => simp [ht, hI, hN, Bind.bind, Except.bind] at h
      | ok names =>
        simp [ht, hI, hN, Bind.bind, Except.bind, Pure.pure, Except.pure] at h
        subst h
        rw [pyGet_pyDel_other _ hk2, pyGet_pySet_other _ _ hk1]
  · simp [ht, Pure.pure, Except.pure] at h
    subst h
    rfl

theorem pyGet_appendAt (r : Record) (kk : String) (v : JValue) {k : String} (h : k ≠ kk) :
    pyGet (appendAt r kk v) k = pyGet r k := by
  unfold appendAt
  cases pyGet r kk with
  | none => rfl
  | some w =>
    cases w with
    | arr l => exact pyGet_pySet_other _ _ h
    | null => rfl
    | b _ => rfl
    | i _ => rfl
    | s _ => rfl
    | obj _ => rfl

theorem pyGet_contribStep (cur : Record) {k : String}
    (h1 : k ≠ "contributors") (h2 : k ≠ "author") (h3 : k ≠ "author_email")
    (h4 : k ≠ "maintainer") (h5 : k ≠ "maintainer_email") :
    pyGet (contribStep cur) k = pyGet cur k := by
  unfold contribStep
  have hdrop : ∀ r : Record,
      pyGet (dropKeys ["author", "author_email", "maintainer", "maintainer_email"] r) k =
        pyGet r k := by
    intro r
    refine pyGet_dropKeys_not_mem _ r ?_
    simp [h2, h3, h4, h5]
  rw [hdrop]
  split
  · unfold contribMaintainer
    split
    · rw [pyGet_appendAt _ _ _ h1]
      unfold contribAuthor
      split
      · rw [pyGet_appendAt _ _ _ h1, pyGet_pySet_other _ _ h1]
      · rw [pyGet_pySet_other _ _ h1]
    · unfold contribAuthor
      split
      · rw [pyGet_appendAt _ _ _ h1, pyGet_pySet_other _ _ h1]
      · rw [pyGet_pySet_other _ _ h1]
  · rfl

theorem pyGet_resourcesStep (cur cur' : Record) {k : String}
    (h : resourcesStep cur = .ok cur') (hk : k ≠ "resources") : pyGet cur' k = pyGet cur k := by
  unfold resourcesStep at h
  by_cases hr : pyHas cur "resources"
  · cases hI : pyIter (pyGetD cur "resources") with
    | error e => simp [hr, hI, Bind.bind, Except.bind] at h
    | ok items =>
      cases hC : convResources items with
      | error e => simp [hr, hI, hC, Bind.bind, Except.bind] at h
      | ok rs =>
        simp [hr, hI, hC, Bind.bind, Except.bind, Pure.pure, Except.pure] at h
        subst h
        exact pyGet_pySet_other _ _ hk
  · simp [hr, Pure.pure, Except.pure] at h
    subst h
    rfl

theorem pyGet_setLic0 (r : Record) (f : String) (v : JValue) {k : String}
    (hk : k ≠ "licenses") : pyGet (setLic0 r f v) k = pyGet r k := by
  unfold setLic0
  cases hl : pyGet r "licenses" with
  | none => rfl
  | some w =>
    cases w with
    | arr l =>
      cases l with
      | nil => rfl
      | cons l0 rest =>
        cases l0 with
        | obj kvs => exact pyGet_pySet_other _ _ hk
        | null => rfl
        | b _ => rfl
        | i _ => rfl
        | s _ => rfl
        | arr _ => rfl
    | null => rfl
    | b _ => rfl
    | i _ => rfl
    | s _ => rfl
    | obj _ => rfl

theorem pyGet_licSynthField (key field : String) (c : Record) {k : String}
    (hk : k ≠ "licenses") : pyGet (licSynthField key field c) k = pyGet c k := by
  unfold licSynthField
  split
  · exact pyGet_setLic0 _ _ _ hk
  · rfl

theorem pyGet_licSynthStep (cur : Record) {k : String}
    (hk1 : k ≠ "licenses") (hk2 : k ≠ "license_id") (hk3 : k ≠ "license_title")
    (hk4 : k ≠ "license_url") : pyGet (licSynthStep cur) k = pyGet cur k := by
  unfold licSynthStep
  rw [pyGet_dropKeys_not_mem _ _ (by simp [hk2, hk3, hk4])]
  rw [pyGet_licSynthField _ _ _ hk1, pyGet_licSynthField _ _ _ hk1,
    pyGet_licSynthField _ _ _ hk1]
  unfold licSynthInit
  split
  · exact pyGet_pySet_other _ _ hk1
  · rfl

theorem pyGet_licAppendAll :
    ∀ (els : List JValue) (cur cur' : Record) {k : String},
      licAppendAll els cur = .ok cur' → k ≠ "licenses" → pyGet cur' k = pyGet cur k := by
  intro els
  induction els with
  | nil =>
    intro cur cur' k h hk
    simp [licAppendAll, Pure.pure, Except.pure] at h
    subst h
    rfl
  | cons license rest ih =>
    intro cur cur' k h hk
    unfold licAppendAll at h
    cases h1 : licField license "name" [] with
    | error e => simp [h1, Bind.bind, Except.bind] at h
    | ok lo1 =>
      cases h2 : licField license "title" lo1 with
      | error e => simp [h1, h2, Bind.bind, Except.bind] at h
      | ok lo2 =>
        cases h3 : licField license "path" lo2 with
        | error e => simp [h1, h2, h3, Bind.bind, Except.bind] at h
        | ok lo3 =>
          cases h4 : pyGet cur "licenses" with
          | none => simp [h1, h2, h3, h4, Bind.bind, Except.bind] at h
          | some licv =>
            cases h5 : pyIn (.obj lo3) licv with
            | error e => simp [h1, h2, h3, h4, h5, Bind.bind, Except.bind] at h
            | ok isIn =>
              simp only [h1, h2, h3, h4, h5, Bind.bind, Except.bind] at h
              cases licv <;> cases isIn <;>
                first
                | exact (ih _ _ h hk).trans (pyGet_pySet_other _ _ hk)
                | exact ih _ _ h hk

theorem pyGet_licScanStep (d cur cur' : Record) {k : String}
    (h : licScanStep d cur = .ok cur') (hk : k ≠ "licenses") : pyGet cur' k = pyGet cur k := by
  unfold licScanStep at h
  by_cases he : pyTruthy (pyGetD d "extras")
  · cases hI : pyIter (pyGetD d "extras") with
    | error e => simp [he, hI, Bind.bind, Except.bind] at h
    | ok items =>
      cases hF : licFind items with
      | error e => simp [he, hI, hF, Bind.bind, Except.bind] at h
      | ok found =>
        cases found with
        | none =>
          simp [he, hI, hF, Bind.bind, Except.bind, Pure.pure, Except.pure] at h
          subst h
          rfl
        | some ll =>
          cases hI2 : pyIter ll with
          | error e => simp [he, hI, hF, hI2, Bind.bind, Except.bind] at h
          | ok els =>
            simp only [he, if_true, hI, hF, hI2, Bind.bind, Except.bind] at h
            exact pyGet_licAppendAll els cur cur' h hk
  · simp [he, Pure.pure, Except.pure] at h
    subst h
    rfl

/-- Lifting a lookup fact across the tail of the `dataset` pipeline:
whatever holds for a key after the contributors step (other than the
keys later steps touch) holds of the final output, provided the value
is not stripped as null. -/
theorem pyGet_dataset_after_contrib {d o1 m out : Record} {k : String} {v : JValue}
    (hE : expandStep d = .ok o1) (hT : tagsStep d (renameStep d o1) = .ok m)
    (hD : dataset d = .ok out)
    (hk1 : k ≠ "resources") (hk2 : k ≠ "licenses") (hk3 : k ≠ "license_id")
    (hk4 : k ≠ "license_title") (hk5 : k ≠ "license_url") (hk6 : k ≠ "state")
    (hget : pyGet (contribStep m) k = some v) (hv : v ≠ .null) :
    pyGet out k = some v := by
  rw [dataset_decomp] at hD
  simp only [hE, hT] at hD
  cases hR : resourcesStep (contribStep m) with
  | error e => simp [hR] at hD
  | ok o5 =>
    cases hL : licScanStep d (licSynthStep o5) with
    | error e => simp [hR, hL] at hD
    | ok o7 =>
      simp only [hR, hL, Except.ok.injEq] at hD
      subst hD
      have g5 : pyGet o5 k = some v := by
        rw [pyGet_resourcesStep _ _ hR hk1]; exact hget
      have g6 : pyGet (licSynthStep o5) k = some v := by
        rw [pyGet_licSynthStep _ hk2 hk3 hk4 hk5]; exact g5
      have g7 : pyGet o7 k = some v := by
        rw [pyGet_licScanStep _ _ _ hL hk2]; exact g6
      have g8 : pyGet (dropKeys dataset_keys_to_remove o7) k = some v := by
        rw [pyGet_dropKeys_not_mem _ _ (by simp [dataset_keys_to_remove, hk6])]; exact g7
      exact pyGet_stripNulls_some _ g8 hv

/-- The `none` counterpart of `pyGet_dataset_after_contrib`. -/
theorem pyGet_dataset_after_contrib_none {d o1 m out : Record} {k : String}
    (hE : expandStep d = .ok o1) (hT : tagsStep d (renameStep d o1) = .ok m)
    (hD : dataset d = .ok out)
    (hk1 : k ≠ "resources") (hk2 : k ≠ "licenses") (hk3 : k ≠ "license_id")
    (hk4 : k ≠ "license_title") (hk5 : k ≠ "license_url")
    (hget : pyGet (contribStep m) k = none) :
    pyGet out k = none := by
  rw [dataset_decomp] at hD
  simp only [hE, hT] at hD
  cases hR : resourcesStep (contribStep m) with
  | error e => simp [hR] at hD
  | ok o5 =>
    cases hL : licScanStep d (licSynthStep o5) with
    | error e => simp [hR, hL] at hD
    | ok o7 =>
      simp only [hR, hL, Except.ok.injEq] at hD
      subst hD
      have g5 : pyGet o5 k = none := by
        rw [pyGet_resourcesStep _ _ hR hk1]; exact hget
      have g6 : pyGet (licSynthStep o5) k = none := by
        rw [pyGet_licSynthStep _ hk2 hk3 hk4 hk5]; exact g5
      have g7 : pyGet o7 k = none := by
        rw [pyGet_licScanStep _ _ _ hL hk2]; exact g6
      exact pyGet_stripNulls_none _ (pyGet_dropKeys_none _ _ g7)

/-- Lifting a lookup fact from just after the rename step to the final
output, for keys the later steps never write. -/
theorem pyGet_dataset_after_rename {d o1 out : Record} {k : String} {v : JValue}
    (hE : expandStep d = .ok o1) (hD : dataset d = .ok out)
    (ha : k ≠ "keywords") (hb : k ≠ "tags")
    (hc : k ≠ "contributors") (hd2 : k ≠ "author") (he : k ≠ "author_email")
    (hf : k ≠ "maintainer") (hg : k ≠ "maintainer_email")
    (hk1 : k ≠ "resources") (hk2 : k ≠ "licenses") (hk3 : k ≠ "license_id")
    (hk4 : k ≠ "license_title") (hk5 : k ≠ "license_url") (hk6 : k ≠ "state")
    (hget : pyGet (renameStep d o1) k = some v) (hv : v ≠ .null) :
    pyGet out k = some v := by
  have hD' := hD
  rw [dataset_decomp] at hD'
  simp only [hE] at hD'
  cases hT : tagsStep d (renameStep d o1) with
  | error e => simp [hT] at hD'
  | ok o3 =>
    have hco : pyGet (contribStep o3) k = some v := by
      rw [pyGet_contribStep o3 hc hd2 he hf hg, pyGet_tagsStep d _ o3 hT ha hb]
      exact hget
    exact pyGet_dataset_after_contrib hE hT hD hk1 hk2 hk3 hk4 hk5 hk6 hco hv

/-- The `none` counterpart of `pyGet_dataset_after_rename`. -/
theorem pyGet_dataset_after_rename_none {d o1 out : Record} {k : String}
    (hE : expandStep d = .ok o1) (hD : dataset d = .ok out)
    (ha : k ≠ "keywords") (hb : k ≠ "tags")
    (hc : k ≠ "contributors") (hd2 : k ≠ "author") (he : k ≠ "author_email")
    (hf : k ≠ "maintainer") (hg : k ≠ "maintainer_email")
    (hk1 : k ≠ "resources") (hk2 : k ≠ "licenses") (hk3 : k ≠ "license_id")
    (hk4 : k ≠ "license_title") (hk5 : k ≠ "license_url")
    (hget : pyGet (renameStep d o1) k = none) :
    pyGet out k = none := by
  have hD' := hD
  rw [dataset_decomp] at hD'
  simp only [hE] at hD'
  cases hT : tagsStep d (renameStep d o1) with
  | error e => simp [hT] at hD'
  | ok o3 =>
    have hco : pyGet (contribStep o3) k = none := by
      rw [pyGet_contribStep o3 hc hd2 he hf hg, pyGet_tagsStep d _ o3 hT ha hb]
      exact hget
    exact pyGet_dataset_after_contrib_none hE hT hD hk1 hk2 hk3 hk4 hk5 hco

theorem contribAuthor_calc (m : Record) :
    contribAuthor (pySet m "contributors" (.arr [])) =
      pySet m "contributors"
        (.arr (if pyHas m "author" && pyTruthy (pyGetD m "author") then [authEntry m]
          else [])) := by
  have e1 : pyGet (pySet m "contributors" (.arr [])) "author" = pyGet m "author" :=
    pyGet_pySet_other _ _ (by decide)
  have e2 : pyGet (pySet m "contributors" (.arr [])) "author_email" = pyGet m "author_email" :=
    pyGet_pySet_other _ _ (by decide)
  unfold contribAuthor appendAt
  rw [pyHas_eq, pyGetD_eq, e1, e2]
  by_cases hA : ((pyGet m "author").isSome && pyTruthy ((pyGet m "author").getD .null)) = true
  · rw [if_pos hA]
    simp [pyGet_pySet_same, pySet_pySet_same, pyHas_eq, pyGetD_eq, hA, authEntry]
  · rw [if_neg hA]
    simp only [pyHas_eq, pyGetD_eq]
    rw [if_neg hA]

theorem contribMaintainer_calc (m : Record) (l : List JValue) :
    contribMaintainer (pySet m "contributors" (.arr l)) =
      pySet m "contributors"
        (.arr (l ++ (if pyHas m "maintainer" && pyTruthy (pyGetD m "maintainer") then
          [maintEntry m] else []))) := by
  have e1 : pyGet (pySet m "contributors" (.arr l)) "maintainer" = pyGet m "maintainer" :=
    pyGet_pySet_other _ _ (by decide)
  have e2 : pyGet (pySet m "contributors" (.arr l)) "maintainer_email" =
      pyGet m "maintainer_email" :=
    pyGet_pySet_other _ _ (by decide)
  unfold contribMaintainer appendAt
  rw [pyHas_eq, pyGetD_eq, e1, e2]
  by_cases hM :
      ((pyGet m "maintainer").isSome && pyTruthy ((pyGet m "maintainer").getD .null)) = true
  · rw [if_pos hM]
    simp [pyGet_pySet_same, pySet_pySet_same, pyHas_eq, pyGetD_eq, hM, maintEntry]
  · rw [if_neg hM]
    simp only [pyHas_eq, pyGetD_eq]
    rw [if_neg hM]
    simp

/-- What the contributors-synthesis step stores under `contributors`
when it fires: the author entry (when author is truthy) followed by the
maintainer entry (when maintainer is truthy). -/
theorem contribStep_contributors (m : Record)
    (h3 : pyTruthy (pyGetD m "contributors") = false)
    (h4 : (pyHas m "author" || pyHas m "maintainer") = true) :
    pyGet (contribStep m) "contributors" = some (.arr (
      (if pyHas m "author" && pyTruthy (pyGetD m "author") then [authEntry m] else []) ++
      (if pyHas m "maintainer" && pyTruthy (pyGetD m "maintainer") then [maintEntry m]
        else []))) := by
  have hfire :
      (!(pyHas m "contributors" && pyTruthy (pyGetD m "contributors")) &&
        (pyHas m "author" || pyHas m "maintainer")) = true := by
    simp [h3, h4]
  unfold contribStep
  rw [pyGet_dropKeys_not_mem _ _ (by decide)]
  rw [if_pos hfire, contribAuthor_calc, contribMaintainer_calc, pyGet_pySet_same]

/-- When the original input lacks a rename-table key, `renameStep`
leaves that key's binding alone. -/
theorem renameStep_miss (d cur : Record) {k t : String} (hp : (k, t) ∈ dataset_mapping)
    (h : pyGet d k = none) : pyGet (renameStep d cur) k = pyGet cur k := by
  have hk : pyHas d k = false := by simp [pyHas_eq, h]
  simp only [dataset_mapping, List.mem_cons, List.not_mem_nil, or_false] at hp
  rcases hp with hp | hp <;> (injection hp with hp1 hp2; subst hp1; subst hp2)
  · unfold renameStep dataset_mapping
    simp only [List.foldl_cons, List.foldl_nil, hk, Bool.false_eq_true, if_false]
    by_cases hu : pyHas d "url"
    · simp only [hu, if_true]
      rw [pyGet_pyDel_other _ (by decide), pyGet_pySet_other _ _ (by decide)]
    · simp [hu]
  · unfold renameStep dataset_mapping
    simp only [List.foldl_cons, List.foldl_nil, hk, Bool.false_eq_true, if_false]
    by_cases hn : pyHas d "notes"
    · simp only [hn, if_true]
      rw [pyGet_pyDel_other _ (by decide), pyGet_pySet_other _ _ (by decide)]
    · simp [hn]

/-- When the original input has a rename-table key, `renameStep` stores
the *original* value under the target name and removes the source
key. -/
theorem renameStep_hit (d cur : Record) {k t : String} (hp : (k, t) ∈ dataset_mapping)
    {v : JValue} (h : pyGet d k = some v) :
    pyGet (renameStep d cur) t = some v ∧ pyGet (renameStep d cur) k = none := by
  have hk : pyHas d k = true := by simp [pyHas_eq, h]
  have hv : pyGetD d k = v := by simp [pyGetD_eq, h]
  simp only [dataset_mapping, List.mem_cons, List.not_mem_nil, or_false] at hp
  rcases hp with hp | hp <;> (injection hp with hp1 hp2; subst hp1; subst hp2)
  · unfold renameStep dataset_mapping
    simp only [List.foldl_cons, List.foldl_nil, hk, if_true]
    constructor
    · by_cases hu : pyHas d "url"
      · simp only [hu, if_true]
        rw [pyGet_pyDel_other _ (by decide), pyGet_pySet_other _ _ (by decide),
          pyGet_pyDel_other _ (by decide), pyGet_pySet_same, hv]
      · simp only [hu, Bool.false_eq_true, if_false]
        rw [pyGet_pyDel_other _ (by decide), pyGet_pySet_same, hv]
    · by_cases hu : pyHas d "url"
      · simp only [hu, if_true]
        rw [pyGet_pyDel_other _ (by decide), pyGet_pySet_other _ _ (by decide),
          pyGet_pyDel_same]
      · simp only [hu, Bool.false_eq_true, if_false]
        rw [pyGet_pyDel_same]
  · unfold renameStep dataset_mapping
    simp only [List.foldl_cons, List.foldl_nil, hk, if_true]
    constructor
    · rw [pyGet_pyDel_other _ (by decide), pyGet_pySet_same, hv]
    · rw [pyGet_pyDel_same]

/-- C8: on a Catalog dataset with no non-empty contributors,
`{author: "A", author_email: "a@x.com"}` converts to exactly
`{contributors: [{title: "A", role: "author", email: "a@x.com"}]}`;
whenever both author and maintainer are truthy at the synthesis point
the contributors list is the author entry followed by the maintainer
entry; and the four source keys author/author_email/maintainer/
maintainer_email are absent from every successful output. -/
theorem claim_C8 :
    (dataset [("author", .s "A"), ("author_email", .s "a@x.com")] =
      .ok [("contributors", .arr [.obj [("title", .s "A"), ("role", .s "author"),
        ("email", .s "a@x.com")]])]) ∧
    (∀ d o1 m out : Record, expandStep d = .ok o1 → tagsStep d (renameStep d o1) = .ok m →
      dataset d = .ok out →
      pyTruthy (pyGetD m "contributors") = false →
      (pyHas m "author" && pyTruthy (pyGetD m "author")) = true →
      (pyHas m "maintainer" && pyTruthy (pyGetD m "maintainer")) = true →
      pyGet out "contributors" = some (.arr [authEntry m, maintEntry m])) ∧
    (∀ (d out : Record) (k : String), dataset d = .ok out →
      k ∈ ["author", "author_email", "maintainer", "maintainer_email"] →
      pyGet out k = none) := by
  refine ⟨by decide, ?_, ?_⟩
  · intro d o1 m out hE hT hD h3 hA hM
    have h4 : (pyHas m "author" || pyHas m "maintainer") = true := by
      have hA' := hA
      simp only [Bool.and_eq_true] at hA'
      simp [hA'.1]
    have hc := contribStep_contributors m h3 h4
    rw [if_pos hA, if_pos hM] at hc
    simp only [List.singleton_append] at hc
    exact pyGet_dataset_after_contrib hE hT hD (by decide) (of_decide_eq_true rfl) (by decide) (of_decide_eq_true rfl)
      (by decide) (of_decide_eq_true rfl) hc (by simp)
  · intro d out k hD hk
    simp only [List.mem_cons, List.not_mem_nil, or_false] at hk
    have hD0 := hD
    rw [dataset_decomp] at hD0
    cases hE : expandStep d with
    | error e => simp [hE] at hD0
    | ok o1 =>
      cases hT : tagsStep d (renameStep d o1) with
      | error e => simp [hE, hT] at hD0
      | ok o3 =>
        have hco : pyGet (contribStep o3) k = none := by
          unfold contribStep
          apply pyGet_dropKeys_mem
          simp only [List.mem_cons, List.not_mem_nil, or_false]
          exact hk
        rcases hk with rfl | rfl | rfl | rfl <;>
          exact pyGet_dataset_after_contrib_none hE hT hD (by decide) (of_decide_eq_true rfl) (by decide)
            (of_decide_eq_true rfl) (by decide) hco

theorem claim_C8_witness :
    pyGet [("contributors", .arr [.obj [("title", .s "A"), ("role", .s "author"),
        ("email", .s "a@x.com")], .obj [("title", .s "M"), ("role", .s "maintainer")]])]
      "contributors" =
      some (.arr [authEntry [("author", .s "A"), ("author_email", .s "a@x.com"),
        ("maintainer", .s "M")],
        maintEntry [("author", .s "A"), ("author_email", .s "a@x.com"),
          ("maintainer", .s "M")]]) ∧
    pyGet [("contributors", .arr [.obj [("title", .s "A"), ("role", .s "author"),
        ("email", .s "a@x.com")], .obj [("title", .s "M"), ("role", .s "maintainer")]])]
      "author" = none :=
  ⟨claim_C8.2.1 [("author", .s "A"), ("author_email", .s "a@x.com"), ("maintainer", .s "M")]
      [("author", .s "A"), ("author_email", .s "a@x.com"), ("maintainer", .s "M")]
      [("author", .s "A"), ("author_email", .s "a@x.com"), ("maintainer", .s "M")]
      [("contributors", .arr [.obj [("title", .s "A"), ("role", .s "author"),
        ("email", .s "a@x.com")], .obj [("title", .s "M"), ("role", .s "maintainer")]])]
      (by decide) (of_decide_eq_true rfl) (by decide) (of_decide_eq_true rfl) (by decide) (of_decide_eq_true rfl),
    claim_C8.2.2 [("author", .s "A"), ("author_email", .s "a@x.com"), ("maintainer", .s "M")]
      [("contributors", .arr [.obj [("title", .s "A"), ("role", .s "author"),
        ("email", .s "a@x.com")], .obj [("title", .s "M"), ("role", .s "maintainer")]])]
      "author" (by decide) (of_decide_eq_true rfl)⟩

/-- C9 (implicit): when the synthesis fires but author and maintainer
are both empty (falsy), the output carries an explicit empty
`contributors` list rather than omitting the key. -/
theorem claim_C9 (d o1 m out : Record)
    (hE : expandStep d = .ok o1) (hT : tagsStep d (renameStep d o1) = .ok m)
    (hD : dataset d = .ok out)
    (h3 : pyTruthy (pyGetD m "contributors") = false)
    (h4 : (pyHas m "author" || pyHas m "maintainer") = true)
    (hA : pyTruthy (pyGetD m "author") = false)
    (hM : pyTruthy (pyGetD m "maintainer") = false) :
    pyGet out "contributors" = some (.arr []) := by
  have hc := contribStep_contributors m h3 h4
  rw [if_neg (by simp [hA]), if_neg (by simp [hM])] at hc
  simp only [List.append_nil] at hc
  exact pyGet_dataset_after_contrib hE hT hD (by decide) (of_decide_eq_true rfl) (by decide) (of_decide_eq_true rfl)
    (by decide) (of_decide_eq_true rfl) hc (by simp)

theorem claim_C9_witness :
    pyGet [("contributors", .arr [])] "contributors" = some (.arr []) :=
  claim_C9 [("author", .s "")] [("author", .s "")] [("author", .s "")]
    [("contributors", .arr [])] (by decide) (of_decide_eq_true rfl) (by decide) (of_decide_eq_true rfl) (by decide)
    (of_decide_eq_true rfl) (by decide)

/-- C10 (implicit): the dataset rename table fires exactly on keys
present in the *original* input: a notes/url key introduced only by
extras expansion keeps its original name in the output; when the key is
present top-level, the renamed field receives the original top-level
value (the extras-expanded value for that key being discarded with the
deleted source key). -/
theorem claim_C10 (d o1 out : Record) (k t : String)
    (hp : (k, t) ∈ dataset_mapping)
    (hE : expandStep d = .ok o1) (hD : dataset d = .ok out) :
    (pyGet d k = none → ∀ w, pyGet o1 k = some w → w ≠ .null → pyGet out k = some w) ∧
    (pyGet d k = none → pyGet o1 k = none → pyGet out k = none) ∧
    (∀ v, pyGet d k = some v → v ≠ .null →
      pyGet out t = some v ∧ pyGet out k = none) := by
  have hp' := hp
  simp only [dataset_mapping, List.mem_cons, List.not_mem_nil, or_false] at hp'
  rcases hp' with hp' | hp' <;> (injection hp' with hp1 hp2; subst hp1; subst hp2)
  · refine ⟨?_, ?_, ?_⟩
    · intro hnone w hw hwn
      have hr : pyGet (renameStep d o1) "notes" = some w := by
        rw [renameStep_miss d o1 hp hnone]; exact hw
      exact pyGet_dataset_after_rename hE hD (by decide) (of_decide_eq_true rfl) (by decide) (of_decide_eq_true rfl)
        (by decide) (of_decide_eq_true rfl) (by decide) (of_decide_eq_true rfl) (by decide) (of_decide_eq_true rfl) (by decide)
        (of_decide_eq_true rfl) (by decide) hr hwn
    · intro hnone hw
      have hr : pyGet (renameStep d o1) "notes" = none := by
        rw [renameStep_miss d o1 hp hnone]; exact hw
      exact pyGet_dataset_after_rename_none hE hD (by decide) (of_decide_eq_true rfl) (by decide)
        (of_decide_eq_true rfl) (by decide) (of_decide_eq_true rfl) (by decide) (of_decide_eq_true rfl) (by decide) (of_decide_eq_true rfl)
        (by decide) (of_decide_eq_true rfl) hr
    · intro v hv hvn
      obtain ⟨hr1, hr2⟩ := renameStep_hit d o1 hp hv
      constructor
      · exact pyGet_dataset_after_rename hE hD (by decide) (of_decide_eq_true rfl) (by decide) (of_decide_eq_true rfl)
          (by decide) (of_decide_eq_true rfl) (by decide) (of_decide_eq_true rfl) (by decide) (of_decide_eq_true rfl) (by decide)
          (of_decide_eq_true rfl) (by decide) hr1 hvn
      · exact pyGet_dataset_after_rename_none hE hD (by decide) (of_decide_eq_true rfl) (by decide)
          (of_decide_eq_true rfl) (by decide) (of_decide_eq_true rfl) (by decide) (of_decide_eq_true rfl) (by decide) (of_decide_eq_true rfl)
          (by decide) (of_decide_eq_true rfl) hr2
  · refine ⟨?_, ?_, ?_⟩
    · intro hnone w hw hwn
      have hr : pyGet (renameStep d o1) "url" = some w := by
        rw [renameStep_miss d o1 hp hnone]; exact hw
      exact pyGet_dataset_after_rename hE hD (by decide) (of_decide_eq_true rfl) (by decide) (of_decide_eq_true rfl)
        (by decide) (of_decide_eq_true rfl) (by decide) (of_decide_eq_true rfl) (by decide) (of_decide_eq_true rfl) (by decide)
        (of_decide_eq_true rfl) (by decide) hr hwn
    · intro hnone hw
      have hr : pyGet (renameStep d o1) "url" = none := by
        rw [renameStep_miss d o1 hp hnone]; exact hw
      exact pyGet_dataset_after_rename_none hE hD (by decide) (of_decide_eq_true rfl) (by decide)
        (of_decide_eq_true rfl) (by decide) (of_decide_eq_true rfl) (by decide) (of_decide_eq_true rfl) (by decide) (of_decide_eq_true rfl)
        (by decide) (of_decide_eq_true rfl) hr
    · intro v hv hvn
      obtain ⟨hr1, hr2⟩ := renameStep_hit d o1 hp hv
      constructor
      · exact pyGet_dataset_after_rename hE hD (by decide) (of_decide_eq_true rfl) (by decide) (of_decide_eq_true rfl)
          (by decide) (of_decide_eq_true rfl) (by decide) (of_decide_eq_true rfl) (by decide) (of_decide_eq_true rfl) (by decide)
          (of_decide_eq_true rfl) (by decide) hr1 hvn
      · exact pyGet_dataset_after_rename_none hE hD (by decide) (of_decide_eq_true rfl) (by decide)
          (of_decide_eq_true rfl) (by decide) (of_decide_eq_true rfl) (by decide) (of_decide_eq_true rfl) (by decide) (of_decide_eq_true rfl)
          (by decide) (of_decide_eq_true rfl) hr2

theorem claim_C10_witness :
    pyGet [("custom", .s "hello"), ("description", .s "N")] "description" = some (.s "N") ∧
    pyGet [("custom", .s "hello"), ("description", .s "N")] "notes" = none :=
  (claim_C10 [("notes", .s "N"), ("extras", .arr [.obj [("key", .s "notes"),
      ("value", .s "X")], .obj [("key", .s "custom"), ("value", .s "hello")]])]
    [("notes", .s "X"), ("custom", .s "hello")]
    [("custom", .s "hello"), ("description", .s "N")]
    "notes" "description" (by decide) (of_decide_eq_true rfl) (by decide)).2.2
    (.s "N") (by decide) (of_decide_eq_true rfl)

/-- A successful `pObjBody` parse yields an object. -/
theorem pObjBody_shape (f : Nat) (rest : List Char) {v : JValue} {r : List Char}
    (h : pObjBody f rest = some (v, r)) : ∃ kvs, v = .obj kvs := by
  cases f with
  | zero => simp [pObjBody] at h
  | succ f => ?_
  unfold pObjBody at h
  split at h
  · injection h with h'
    injection h' with h1 _
    exact ⟨[], h1.symm⟩
  · split at h
    · injection h with h'
      injection h' with h1 _
      exact ⟨_, h1.symm⟩
    · cases h

/-- A successful `pArrBody` parse yields an array. -/
theorem pArrBody_shape (f : Nat) (rest : List Char) {v : JValue} {r : List Char}
    (h : pArrBody f rest = some (v, r)) : ∃ xs, v = .arr xs := by
  cases f with
  | zero => simp [pArrBody] at h
  | succ f => ?_
  unfold pArrBody at h
  split at h
  · injection h with h'
    injection h' with h1 _
    exact ⟨[], h1.symm⟩
  · split at h
    · injection h with h'
      injection h' with h1 _
      exact ⟨_, h1.symm⟩
    · cases h

theorem pVal_succ_brace (f : Nat) (tl : List Char) : pVal (f + 1) ('\x7b' :: tl) = pObjBody f tl := rfl

theorem pVal_succ_bracket (f : Nat) (tl : List Char) : pVal (f + 1) ('[' :: tl) = pArrBody f tl := rfl

/-- `json.loads` of a string whose first character is `\x7b` or `[` never
returns `null` (it returns an object or an array, or fails). -/
theorem jsonParse_brace_ne_null (t : String)
    (h : (startsWithChar t '\x7b' || startsWithChar t '[') = true) {j : JValue}
    (hp : jsonParse t = some j) : j ≠ JValue.null := by
  unfold jsonParse at hp
  cases ht : t.data with
  | nil => simp [startsWithChar, ht] at h
  | cons c tl =>
    rw [ht] at hp
    have hc : c = '\x7b' ∨ c = '[' := by
      simp [startsWithChar, ht] at h
      rcases h with h | h
      · exact Or.inl h
      · exact Or.inr h
    have hfl : t.length + 8 = (t.length + 7) + 1 := rfl
    rcases hc with rfl | rfl
    · rw [hfl, pVal_succ_brace] at hp
      cases hb : pObjBody (t.length + 7) tl with
      | none => rw [hb] at hp; cases hp
      | some pr =>
        obtain ⟨v, rest⟩ := pr
        rw [hb] at hp
        obtain ⟨kvs, rfl⟩ := pObjBody_shape _ _ hb
        by_cases hre : (skipWs rest).isEmpty
        · simp only [hre, if_true] at hp
          injection hp with hp1
          subst hp1
          simp
        · simp [hre] at hp
    · rw [hfl, pVal_succ_bracket] at hp
      cases hb : pArrBody (t.length + 7) tl with
      | none => rw [hb] at hp; cases hp
      | some pr =>
        obtain ⟨v, rest⟩ := pr
        rw [hb] at hp
        obtain ⟨xs, rfl⟩ := pArrBody_shape _ _ hb
        by_cases hre : (skipWs rest).isEmpty
        · simp only [hre, if_true] at hp
          injection hp with hp1
          subst hp1
          simp
        · simp [hre] at hp

theorem pyGet_mapVals (f : JValue → JValue) :
    ∀ (r : Record) (k : String),
      pyGet (r.map fun kv => (kv.1, f kv.2)) k = (pyGet r k).map f := by
  intro r
  induction r with
  | nil => intro k; simp [pyGet]
  | cons kv rest ih =>
    intro k
    obtain ⟨k', v⟩ := kv
    by_cases h : k' = k
    · subst h; simp [pyGet]
    · simp [pyGet, h, ih]

theorem pyHas_unjsonifyStep (r : Record) (k : String) :
    pyHas (unjsonifyStep r) k = pyHas r k := by
  simp only [pyHas_eq, unjsonifyStep, pyGet_mapVals]
  cases pyGet r k <;> rfl

/-- One pair of the resource rename loop leaves unrelated keys
alone. -/
theorem pyGet_remapPair (acc : Record) (a b : String) {kk : String} (h1 : kk ≠ a)
    (h2 : kk ≠ b) :
    pyGet (if pyHas acc a then pyDel (pySet acc b (pyGetD acc a)) a else acc) kk =
      pyGet acc kk := by
  split
  · rw [pyGet_pyDel_other _ h1, pyGet_pySet_other _ _ h2]
  · rfl

theorem pyHas_remapPair (acc : Record) (a b : String) {kk : String} (h1 : kk ≠ a)
    (h2 : kk ≠ b) :
    pyHas (if pyHas acc a then pyDel (pySet acc b (pyGetD acc a)) a else acc) kk =
      pyHas acc kk :=
  congrArg Option.isSome (pyGet_remapPair acc a b h1 h2)

/-- The resource rename loop moves a surviving key's value to its
target name, provided nothing later overwrites that target. -/
theorem pyGet_remapStep_target (r : Record) (k : String) {v : JValue}
    (hv : pyGet r k = some v) (hov : overwrittenByRemap r k = false) :
    pyGet (remapStep r) (renameTarget k) = some v := by
  have hov' := hov
  simp only [overwrittenByRemap, Bool.or_eq_false_iff, Bool.and_eq_false_iff,
    beq_eq_false_iff_ne, ne_eq] at hov'
  unfold remapStep resource_mapping
  simp only [List.foldl_cons, List.foldl_nil]
  by_cases hk1 : k = "size"
  · subst hk1
    have ht : renameTarget "size" = "bytes" := by decide
    rw [ht]
    have hHas : pyHas r "size" = true := by simp [pyHas_eq, hv]
    rw [pyGet_remapPair _ "url" "path" (by decide) (by decide),
      pyGet_remapPair _ "mimetype" "mediatype" (by decide) (by decide)]
    simp only [hHas, if_true]
    rw [pyGet_pyDel_other _ (by decide), pyGet_pySet_same]
    simp [pyGetD_eq, hv]
  · by_cases hk2 : k = "mimetype"
    · subst hk2
      have ht : renameTarget "mimetype" = "mediatype" := by decide
      rw [ht]
      have hp1 : pyGet (if pyHas r "size" then pyDel (pySet r "bytes" (pyGetD r "size")) "size"
          else r) "mimetype" = some v := by
        rw [pyGet_remapPair _ "size" "bytes" (by decide) (by decide)]
        exact hv
      have hHas : pyHas (if pyHas r "size" then pyDel (pySet r "bytes" (pyGetD r "size")) "size"
          else r) "mimetype" = true := by
        rw [pyHas_eq, hp1]; rfl
      rw [pyGet_remapPair _ "url" "path" (by decide) (by decide)]
      simp only [hHas, if_true]
      rw [pyGet_pyDel_other _ (by decide), pyGet_pySet_same, pyGetD_eq, hp1]
      rfl
    · by_cases hk3 : k = "url"
      · subst hk3
        have ht : renameTarget "url" = "path" := by decide
        rw [ht]
        have hp2 : pyGet (if pyHas (if pyHas r "size" then
            pyDel (pySet r "bytes" (pyGetD r "size")) "size" else r) "mimetype" then
            pyDel (pySet (if pyHas r "size" then pyDel (pySet r "bytes" (pyGetD r "size")) "size"
              else r) "mediatype" (pyGetD (if pyHas r "size" then
                pyDel (pySet r "bytes" (pyGetD r "size")) "size" else r) "mimetype")) "mimetype"
            else (if pyHas r "size" then pyDel (pySet r "bytes" (pyGetD r "size")) "size"
              else r)) "url" = some v := by
          rw [pyGet_remapPair _ "mimetype" "mediatype" (by decide) (by decide),
            pyGet_remapPair _ "size" "bytes" (by decide) (by decide)]
          exact hv
        have hHas : pyHas (if pyHas (if pyHas r "size" then
            pyDel (pySet r "bytes" (pyGetD r "size")) "size" else r) "mimetype" then
            pyDel (pySet (if pyHas r "size" then pyDel (pySet r "bytes" (pyGetD r "size")) "size"
              else r) "mediatype" (pyGetD (if pyHas r "size" then
                pyDel (pySet r "bytes" (pyGetD r "size")) "size" else r) "mimetype")) "mimetype"
            else (if pyHas r "size" then pyDel (pySet r "bytes" (pyGetD r "size")) "size"
              else r)) "url" = true := by
          rw [pyHas_eq, hp2]; rfl
        simp only [hHas, if_true]
        rw [pyGet_pyDel_other _ (by decide), pyGet_pySet_same, pyGetD_eq, hp2]
        rfl
      · have ht : renameTarget k = k := by simp [renameTarget, hk1, hk2, hk3]
        rw [ht]
        by_cases hb1 : k = "bytes"
        · subst hb1
          have hs : pyHas r "size" = false := by
            rcases hov'.1.1 with h | h
            · cases h rfl
            · exact h
          simp only [hs, Bool.false_eq_true, if_false]
          rw [pyGet_remapPair _ "url" "path" (by decide) (by decide),
            pyGet_remapPair _ "mimetype" "mediatype" (by decide) (by decide)]
          exact hv
        · by_cases hb2 : k = "mediatype"
          · subst hb2
            have hm : pyHas r "mimetype" = false := by
              rcases hov'.1.2 with h | h
              · cases h rfl
              · exact h
            have hm' : pyHas (if pyHas r "size" then
                pyDel (pySet r "bytes" (pyGetD r "size")) "size" else r) "mimetype" = false := by
              rw [pyHas_remapPair _ "size" "bytes" (by decide) (by decide)]
              exact hm
            rw [pyGet_remapPair _ "url" "path" (by decide) (by decide)]
            simp only [hm', Bool.false_eq_true, if_false]
            rw [pyGet_remapPair _ "size" "bytes" (by decide) (by decide)]
            exact hv
          · by_cases hb3 : k = "path"
            · subst hb3
              have hu : pyHas r "url" = false := by
                rcases hov'.2 with h | h
                · cases h rfl
                · exact h
              have hu' : pyHas (if pyHas (if pyHas r "size" then
                  pyDel (pySet r "bytes" (pyGetD r "size")) "size" else r) "mimetype" then
                  pyDel (pySet (if pyHas r "size" then
                    pyDel (pySet r "bytes" (pyGetD r "size")) "size" else r) "mediatype"
                    (pyGetD (if pyHas r "size" then
                      pyDel (pySet r "bytes" (pyGetD r "size")) "size" else r) "mimetype"))
                    "mimetype"
                  else (if pyHas r "size" then pyDel (pySet r "bytes" (pyGetD r "size")) "size"
                    else r)) "url" = false := by
                rw [pyHas_remapPair _ "mimetype" "mediatype" (by decide) (by decide),
                  pyHas_remapPair _ "size" "bytes" (by decide) (by decide)]
                exact hu
              simp only [hu', Bool.false_eq_true, if_false]
              rw [pyGet_remapPair _ "mimetype" "mediatype" (by decide) (by decide),
                pyGet_remapPair _ "size" "bytes" (by decide) (by decide)]
              exact hv
            · rw [pyGet_remapPair _ "url" "path" (Ne.intro hk3) (Ne.intro hb3),
                pyGet_remapPair _ "mimetype" "mediatype" (Ne.intro hk2) (Ne.intro hb2),
                pyGet_remapPair _ "size" "bytes" (Ne.intro hk1) (Ne.intro hb1)]
              exact hv

/-- C3 counterexample: `packageToCatalog` strips no nulls — a
null-valued key passes straight through to the output (the repo's own
`test_dataset_license` expectations even include `license_title: None`). -/
theorem claim_C3_counterexample :
    package [("x", JValue.null)] = .ok [("x", JValue.null)] ∧
    pyGet [("x", JValue.null)] "x" = some JValue.null := by decide

/-- C3 (amended): null-valued keys never appear in
`catalogResourceToPackage`'s or `catalogDatasetToPackage`'s output;
`packageToCatalog` performs no null-stripping and can return
null-valued keys. -/
theorem claim_C3_amended :
    (∀ (d : Record) (kv : String × JValue), kv ∈ resource d → kv.2 ≠ JValue.null) ∧
    (∀ (d out : Record) (kv : String × JValue),
      dataset d = .ok out → kv ∈ out → kv.2 ≠ JValue.null) ∧
    package [("x", JValue.null)] = .ok [("x", JValue.null)] := by
  refine ⟨?_, ?_, by decide⟩
  · intro d kv h
    unfold resource stripNulls at h
    have hp := List.of_mem_filter h
    simpa using hp
  · intro d out kv hD hmem
    rw [dataset_decomp] at hD
    cases hE : expandStep d with
    | error e => simp [hE] at hD
    | ok o1 =>
      cases hT : tagsStep d (renameStep d o1) with
      | error e => simp [hE, hT] at hD
      | ok o3 =>
        cases hR : resourcesStep (contribStep o3) with
        | error e => simp [hE, hT, hR] at hD
        | ok o5 =>
          cases hL : licScanStep d (licSynthStep o5) with
          | error e => simp [hE, hT, hR, hL] at hD
          | ok o7 =>
            simp only [hE, hT, hR, hL, Except.ok.injEq] at hD
            subst hD
            unfold stripNulls at hmem
            have hp := List.of_mem_filter hmem
            simpa using hp

theorem claim_C3_amended_witness :
    (("a", JValue.s "x") : String × JValue).2 ≠ JValue.null :=
  claim_C3_amended.1 [("a", .s "x")] ("a", .s "x") (by decide)

/-- C7 counterexample: a surviving key whose JSON-looking string is
malformed is *not* always carried to the output unchanged — here the
rename of `url` onto `path` overwrites it, so the original string
`"\x7bbad"` is gone from the output entirely. -/
theorem claim_C7_counterexample :
    resource [("path", .s "\x7bbad"), ("url", .s "zzz")] = [("path", .s "zzz")] ∧
    JValue.s "\x7bbad" ∉ (resource [("path", .s "\x7bbad"), ("url", .s "zzz")]).map Prod.snd := by
  decide

/-- C7 (amended): for every key surviving step 1 whose value is a
string that stripped starts with `\x7b` or `[`, the output carries — under
the key's renamed name — the parsed structure when the string is valid
JSON and the original (unstripped) string otherwise, *provided* the
rename loop does not overwrite that slot (url/size/mimetype renamed
onto path/bytes/mediatype). -/
theorem claim_C7_amended (d : Record) (k str : String)
    (h1 : pyGet (dropKeys resource_keys_to_remove d) k = some (.s str))
    (h2 : (startsWithChar (pyStrip str) '\x7b' || startsWithChar (pyStrip str) '[') = true)
    (h3 : overwrittenByRemap (dropKeys resource_keys_to_remove d) k = false) :
    pyGet (resource d) (renameTarget k) =
      some (match jsonParse (pyStrip str) with
        | some j => j
        | none => .s str) := by
  have hu : pyGet (unjsonifyStep (dropKeys resource_keys_to_remove d)) k =
      some (unjsonifyVal (.s str)) := by
    unfold unjsonifyStep
    rw [pyGet_mapVals, h1]
    rfl
  have huv : unjsonifyVal (.s str) =
      match jsonParse (pyStrip str) with
      | some j => j
      | none => .s str := by
    have hred : unjsonifyVal (.s str) =
        if (startsWithChar (pyStrip str) '\x7b' || startsWithChar (pyStrip str) '[') = true then
          (match jsonParse (pyStrip str) with
          | some j => j
          | none => JValue.s str)
        else JValue.s str := rfl
    rw [hred, if_pos h2]
  have hov' : overwrittenByRemap (unjsonifyStep (dropKeys resource_keys_to_remove d)) k
      = false := by
    have e1 := pyHas_unjsonifyStep (dropKeys resource_keys_to_remove d) "size"
    have e2 := pyHas_unjsonifyStep (dropKeys resource_keys_to_remove d) "mimetype"
    have e3 := pyHas_unjsonifyStep (dropKeys resource_keys_to_remove d) "url"
    unfold overwrittenByRemap at h3 ⊢
    rw [e1, e2, e3]
    exact h3
  have hr := pyGet_remapStep_target (unjsonifyStep (dropKeys resource_keys_to_remove d)) k
    hu hov'
  have hnn : unjsonifyVal (.s str) ≠ .null := by
    rw [huv]
    cases hj : jsonParse (pyStrip str) with
    | none => simp
    | some j => simpa using jsonParse_brace_ne_null _ h2 hj
  unfold resource
  rw [← huv]
  exact pyGet_stripNulls_some _ hr hnn

theorem claim_C7_amended_witness :
    pyGet (resource [("schema", .s "[1, 2]")]) (renameTarget "schema") =
      some (.arr [.i 1, .i 2]) := by
  rw [claim_C7_amended [("schema", .s "[1, 2]")] "schema" "[1, 2]" (by decide) (of_decide_eq_true rfl)
    (by decide)]
  decide

/-- C1 (code bug): the Catalog→Package→Catalog round trip is *not* a
fixed point from the second application on.  `packageToCatalog` reads
`licenses[0]['type']` while `catalogDatasetToPackage` emits licenses
keyed `name` (as the repo's own `test_dataset_license` fixtures do), so
the second application raises `KeyError: 'type'` instead of returning
`D`. -/
theorem claim_C1_bug :
    package [("licenses", .arr [.obj [("type", .s "cc")]])] = .ok [("license_id", .s "cc")] ∧
    dataset [("license_id", .s "cc")] = .ok [("licenses", .arr [.obj [("name", .s "cc")]])] ∧
    package [("licenses", .arr [.obj [("name", .s "cc")]])] = .error (.keyError "type") := by
  decide

/-- C2 (code bug): `packageToCatalog` never sweeps unrecognized keys
into `extras`: a key outside `ckan_package_keys` stays top-level and no
`{key, value}` entry is produced, contradicting the module's own
comment ("Any key not in this list is passed as is inside extras") and
its `test_extras_is_converted` test.  In particular the claim's
round-trip example ends with `custom` top-level and no extras at all. -/
theorem claim_C2_bug :
    ("custom" ∉ ckan_package_keys) ∧
    dataset [("extras", .arr [.obj [("key", .s "custom"), ("value", .s "hello")]])] =
      .ok [("custom", .s "hello")] ∧
    package [("custom", .s "hello")] = .ok [("custom", .s "hello")] ∧
    pyGet [("custom", .s "hello")] "extras" = none := by decide

/-- C4 (code bug): the licenses-from-extras scan runs `json.loads`
*outside* any try/except (ckan_to_frictionless.py line 182): an extras
entry with key `licenses` and a malformed JSON value makes
`catalogDatasetToPackage` raise `JSONDecodeError` to the caller, while
the same malformed value under any other key is kept as the original
string and the conversion succeeds. -/
theorem claim_C4_bug :
    dataset [("extras", .arr [.obj [("key", .s "licenses"), ("value", .s "not json")]])] =
      .error .jsonError ∧
    dataset [("extras", .arr [.obj [("key", .s "other"), ("value", .s "not json")]])] =
      .ok [("other", .s "not json")] := by decide

theorem pseq_ok (st : PSt) (f : PSt → PSt × Option PyErr) : pseq (st, none) f = f st := rfl

theorem pseq_err (st : PSt) (e : PyErr) (f : PSt → PSt × Option PyErr) :
    pseq (st, some e) f = (st, some e) := rfl

/-- What the contributors-overflow tail does to `contributors` and
`extras` when it returns without raising. -/
theorem pkgContribOverflow_calc (c0 : List (String × JValue)) (st2 : PSt) (tl : List JValue)
    (h2 : pyGet st2.out "contributors" = some (.arr (.obj c0 :: tl))) {stC : PSt}
    (hC : pkgContribOverflow (.obj c0) st2 = (stC, none)) :
    pyGet stC.out "contributors" = none ∧
    pyGet stC.out "extras" =
      (if tl.isEmpty = false then
        some (.arr (extrasBase (pyGet st2.out "extras") ++
          [.obj [("contributors", .arr (.obj c0 :: tl))]]))
      else if (c0.any fun kv => kv.1 ∈ contribFlagKeys) &&
          !pyTruthy (pyGetD st2.out "extras") then
        some (.arr [.obj [("contributors", .arr (.obj c0 :: tl))]])
      else pyGet st2.out "extras") := by
  have hget2 : pyGetD st2.out "contributors" = .arr (.obj c0 :: tl) := by
    rw [pyGetD_eq, h2]; rfl
  unfold pkgContribOverflow at hC
  rw [hget2] at hC
  simp only [pyLen, List.length_cons] at hC
  by_cases htl : tl.isEmpty
  · have htl' : tl = [] := List.isEmpty_iff.mp htl
    subst htl'
    rw [if_neg (by decide : ¬ (1 < List.length (α := JValue) [] + 1))] at hC
    by_cases hflag :
        ((c0.any fun kv => kv.1 ∈ contribFlagKeys) &&
          !pyTruthy (pyGetD st2.out "extras")) = true
    · rw [if_pos hflag] at hC
      simp only [setFreshExtras] at hC
      injection hC with hC1 hC2
      subst hC1
      refine ⟨pyGet_pyDel_same _ _, ?_⟩
      rw [pyGet_pyDel_other _ (by decide), pyGet_pySet_same]
      simp [hflag]
    · rw [if_neg hflag] at hC
      injection hC with hC1 hC2
      subst hC1
      refine ⟨pyGet_pyDel_same _ _, ?_⟩
      rw [pyGet_pyDel_other _ (by decide)]
      simp [hflag]
  · have hisf : tl.isEmpty = false := by
      cases hh : tl.isEmpty
      · rfl
      · exact absurd hh htl
    have hlt : 1 < tl.length + 1 := by
      have h0 : tl ≠ [] := by
        intro hh
        subst hh
        exact htl rfl
      have := List.length_pos.mpr h0
      omega
    rw [if_pos hlt] at hC
    unfold appendExtras at hC
    by_cases hx : pyTruthy (pyGetD st2.out "extras") = true
    · rw [if_neg (by simp [hx])] at hC
      unfold appendExtras2 at hC
      cases hv : pyGet st2.out "extras" with
      | none =>
        rw [pyGetD_eq, hv] at hx
        simp [pyTruthy] at hx
      | some v =>
        cases v with
        | arr l =>
          rw [hv] at hC
          injection hC with hC1 hC2
          subst hC1
          have hl : l.isEmpty = false := by
            rw [pyGetD_eq, hv] at hx
            simpa [pyTruthy] using hx
          refine ⟨?_, ?_⟩
          · exact pyGet_pyDel_same _ _
          · rw [pyGet_pyDel_other _ (by decide), pyGet_pySet_same]
            rw [if_pos hisf]
            simp [extrasBase, hl]
        | null =>
          rw [pyGetD_eq, hv] at hx
          simp [pyTruthy] at hx
        | b bv =>
          rw [hv] at hC
          cases hC
        | i iv =>
          rw [hv] at hC
          cases hC
        | s sv =>
          rw [hv] at hC
          cases hC
        | obj ov =>
          rw [hv] at hC
          cases hC
    · rw [if_pos (by simp [hx] : (!pyTruthy (pyGetD st2.out "extras")) = true)] at hC
      unfold appendExtras2 at hC
      simp only [pyGet_pySet_same] at hC
      injection hC with hC1 hC2
      subst hC1
      refine ⟨?_, ?_⟩
      · exact pyGet_pyDel_same _ _
      · rw [pyGet_pyDel_other _ (by decide), pySet_pySet_same, pyGet_pySet_same]
        rw [if_pos hisf]
        have hbase : extrasBase (pyGet st2.out "extras") = [] := by
          cases hv : pyGet st2.out "extras" with
          | none => rfl
          | some v =>
            cases v with
            | arr l =>
              rw [pyGetD_eq, hv] at hx
              simp only [Option.getD_some, pyTruthy] at hx
              have hle : l.isEmpty = true := by
                by_cases hh : l.isEmpty
                · exact hh
                · simp [hh] at hx
              simp [extrasBase, List.isEmpty_iff.mp hle]
            | null => rfl
            | b bv => rfl
            | i iv => rfl
            | s sv => rfl
            | obj ov => rfl
        rw [hbase]

theorem pkgKeywords_preserves (st st' : PSt) (h : pkgKeywords st = (st', none)) {k : String}
    (h1 : k ≠ "tags") (h2 : k ≠ "keywords") : pyGet st'.out k = pyGet st.out k := by
  unfold pkgKeywords at h
  by_cases ht : pyTruthy (pyGetD st.out "keywords") = true
  · cases hI : pyIter (pyGetD st.out "keywords") with
    | error e => simp [ht, hI] at h
    | ok items =>
      cases hK : kwTags items with
      | error e => simp [ht, hI, hK] at h
      | ok tags =>
        simp only [ht, if_true, hI, hK, Prod.mk.injEq] at h
        obtain ⟨ha, -⟩ := h
        subst ha
        simp only []
        rw [pyGet_pyDel_other _ h2, pyGet_pySet_other _ _ h1]
  · rw [if_neg ht] at h
    simp only [Prod.mk.injEq] at h
    obtain ⟨ha, -⟩ := h
    subst ha
    rfl

/-- C5 counterexample: a single contributor carrying `role` together
with an already-truthy `extras` list — the code appends nothing to
`extras` (the append sits inside the `if not outdict.get('extras')`
guard), contrary to the claim's "appends ... exactly when". -/
theorem claim_C5_counterexample :
    package [("contributors", .arr [.obj [("title", .s "A"), ("role", .s "maintainer")]]),
      ("extras", .arr [.obj [("key", .s "k"), ("value", .s "v")]])] =
      .ok [("extras", .arr [.obj [("key", .s "k"), ("value", .s "v")]]),
        ("maintainer", .s "A")] ∧
    (JValue.obj [("contributors",
      .arr [.obj [("title", .s "A"), ("role", .s "maintainer")]])]) ∉
      [JValue.obj [("key", .s "k"), ("value", .s "v")]] := by decide

/-- C5 (amended): on a run of `packageToCatalog` that returns, with a
non-empty contributors list whose first element is a dict carrying a
title, the output always deletes `contributors`, and appends
`{contributors: <full sequence>}` to `extras` exactly when the sequence
has more than one element (creating `extras` when absent or falsy), or
when its single element carries one of path/organisation/role *and*
`extras` is absent or falsy at that point (a fresh list is then
created); a single flagged contributor alongside an already-truthy
`extras` appends nothing. -/
theorem claim_C5_amended (d : Record) (st : PSt) (c0 : List (String × JValue))
    (tl : List JValue) (tv : JValue) (out : Record)
    (hPre : pkgPre d = (st, none))
    (h2 : pyGet st.out "contributors" = some (.arr (.obj c0 :: tl)))
    (h5 : pyGet c0 "title" = some tv)
    (hD : package d = .ok out) :
    pyGet out "contributors" = none ∧
    pyGet out "extras" =
      (if tl.isEmpty = false then
        some (.arr (extrasBase (pyGet st.out "extras") ++
          [.obj [("contributors", .arr (.obj c0 :: tl))]]))
      else if (c0.any fun kv => kv.1 ∈ contribFlagKeys) &&
          !pyTruthy (pyGetD st.out "extras") then
        some (.arr [.obj [("contributors", .arr (.obj c0 :: tl))]])
      else pyGet st.out "extras") := by
  have hget2 : pyGetD st.out "contributors" = .arr (.obj c0 :: tl) := by
    rw [pyGetD_eq, h2]; rfl
  have htr : pyTruthy (pyGetD st.out "contributors") = true := by rw [hget2]; rfl
  obtain ⟨st2, hCeq, hc2, he2⟩ : ∃ st2 : PSt,
      pkgContrib st = pkgContribOverflow (.obj c0) st2 ∧
      pyGet st2.out "contributors" = some (.arr (.obj c0 :: tl)) ∧
      pyGet st2.out "extras" = pyGet st.out "extras" := by
    by_cases hEm : pyTruthy ((pyGet c0 "email").getD .null) = true
    · refine ⟨{ st with
          out := pySet (pySet st.out "maintainer" tv) "maintainer_email"
            ((pyGet c0 "email").getD .null) }, ?_, ?_, ?_⟩
      · unfold pkgContrib
        rw [if_pos htr, hget2]
        simp [pySubIdx, pySub, pyGetMeth, h5, hEm]
      · simp only []
        rw [pyGet_pySet_other _ _ (by decide), pyGet_pySet_other _ _ (by decide)]
        exact h2
      · simp only []
        rw [pyGet_pySet_other _ _ (by decide), pyGet_pySet_other _ _ (by decide)]
    · refine ⟨{ st with out := pySet st.out "maintainer" tv }, ?_, ?_, ?_⟩
      · unfold pkgContrib
        rw [if_pos htr, hget2]
        simp [pySubIdx, pySub, pyGetMeth, h5, hEm]
      · simp only []
        rw [pyGet_pySet_other _ _ (by decide)]
        exact h2
      · simp only []
        rw [pyGet_pySet_other _ _ (by decide)]
  have he2' : pyGetD st2.out "extras" = pyGetD st.out "extras" := by
    rw [pyGetD_eq, pyGetD_eq, he2]
  have hrun : packageRun d = pseq (pkgContribOverflow (.obj c0) st2) pkgKeywords := by
    unfold packageRun
    rw [hPre, pseq_ok, hCeq]
  cases hCo : pkgContribOverflow (.obj c0) st2 with
  | mk stC eo =>
    cases eo with
    | some e =>
      have hpkg : package d = .error e := by
        unfold package
        rw [hrun, hCo, pseq_err]
      rw [hD] at hpkg
      cases hpkg
    | none =>
      have hcalc := pkgContribOverflow_calc c0 st2 tl hc2 hCo
      have hrun2 : packageRun d = pkgKeywords stC := by rw [hrun, hCo, pseq_ok]
      cases hKw : pkgKeywords stC with
      | mk stF e2 =>
        cases e2 with
        | some e =>
          have hpkg : package d = .error e := by
            unfold package
            rw [hrun2, hKw]
          rw [hD] at hpkg
          cases hpkg
        | none =>
          have hpkg : package d = .ok stF.out := by
            unfold package
            rw [hrun2, hKw]
          have hout : out = stF.out := Except.ok.inj (hD.symm.trans hpkg)
          subst hout
          have p1 := pkgKeywords_preserves stC stF hKw (k := "contributors")
            (by decide) (of_decide_eq_true rfl)
          have p2 := pkgKeywords_preserves stC stF hKw (k := "extras") (by decide) (of_decide_eq_true rfl)
          refine ⟨?_, ?_⟩
          · rw [p1]
            exact hcalc.1
          · rw [p2, hcalc.2, he2, he2']

theorem claim_C5_amended_witness :
    pyGet [("maintainer", .s "A"),
      ("extras", .arr [.obj [("contributors",
        .arr [.obj [("title", .s "A"), ("role", .s "maintainer")]])]])] "contributors" =
      none ∧
    pyGet [("maintainer", .s "A"),
      ("extras", .arr [.obj [("contributors",
        .arr [.obj [("title", .s "A"), ("role", .s "maintainer")]])]])] "extras" =
      (if ([] : List JValue).isEmpty = false then
        some (.arr (extrasBase (pyGet (PSt.mk [("contributors",
          .arr [.obj [("title", .s "A"), ("role", .s "maintainer")]])] none false).out
            "extras") ++
          [.obj [("contributors", .arr [.obj [("title", .s "A"), ("role", .s "maintainer")]])]]))
      else if (([("title", JValue.s "A"), ("role", JValue.s "maintainer")]).any
          fun kv => kv.1 ∈ contribFlagKeys) &&
          !pyTruthy (pyGetD (PSt.mk [("contributors",
            .arr [.obj [("title", .s "A"), ("role", .s "maintainer")]])] none false).out
            "extras") then
        some (.arr [.obj [("contributors",
          .arr [.obj [("title", .s "A"), ("role", .s "maintainer")]])]])
      else pyGet (PSt.mk [("contributors",
        .arr [.obj [("title", .s "A"), ("role", .s "maintainer")]])] none false).out
        "extras") :=
  claim_C5_amended
    [("contributors", .arr [.obj [("title", .s "A"), ("role", .s "maintainer")]])]
    (PSt.mk [("contributors", .arr [.obj [("title", .s "A"), ("role", .s "maintainer")]])]
      none false)
    [("title", .s "A"), ("role", .s "maintainer")] [] (.s "A")
    [("maintainer", .s "A"),
      ("extras", .arr [.obj [("contributors",
        .arr [.obj [("title", .s "A"), ("role", .s "maintainer")]])]])]
    (by decide) (of_decide_eq_true rfl) (by decide) (of_decide_eq_true rfl)

theorem inLExt_refl (a : Option (List JValue)) : inLExt a a :=
  ⟨fun h => h, fun L h => ⟨[], by simp [h]⟩⟩

theorem inLExt_trans {a b c : Option (List JValue)} (h1 : inLExt a b) (h2 : inLExt b c) :
    inLExt a c := by
  refine ⟨fun h => h2.1 (h1.1 h), fun L h => ?_⟩
  obtain ⟨es1, hb⟩ := h1.2 L h
  obtain ⟨es2, hc⟩ := h2.2 _ hb
  exact ⟨es1 ++ es2, by rw [hc, List.append_assoc]⟩

theorem inLExt_of_eq {a b : Option (List JValue)} (h : a = b) : inLExt a b := h ▸ inLExt_refl a

theorem appendExtras2_inLExt (st1 : PSt) (entry : JValue) :
    inLExt st1.inL (appendExtras2 st1 entry).1.inL := by
  unfold appendExtras2
  cases hv : pyGet st1.out "extras" with
  | none => exact inLExt_refl _
  | some v =>
    cases v with
    | arr l =>
      simp only []
      by_cases ha : st1.aliased
      · rw [if_pos ha]
        refine ⟨fun h => by simp [h], fun L h => ⟨[entry], by simp [h]⟩⟩
      · rw [if_neg ha]
        exact inLExt_refl _
    | null => exact inLExt_refl _
    | b _ => exact inLExt_refl _
    | i _ => exact inLExt_refl _
    | s _ => exact inLExt_refl _
    | obj _ => exact inLExt_refl _

theorem appendExtras_inLExt (st : PSt) (entry : JValue) :
    inLExt st.inL (appendExtras st entry).1.inL := by
  unfold appendExtras
  split
  · exact appendExtras2_inLExt
      { st with out := pySet st.out "extras" (.arr []), aliased := false } entry
  · exact appendExtras2_inLExt st entry

theorem delKeyStep_inL (k : String) (r : PSt × Option PyErr) :
    (delKeyStep k r).1.inL = r.1.inL := by
  unfold delKeyStep
  rcases r with ⟨st3, e⟩
  cases e <;> rfl

theorem pkgLicensesTail_inLExt (st2 : PSt) :
    inLExt st2.inL (pkgLicensesTail st2).1.inL := by
  unfold pkgLicensesTail
  split
  · exact inLExt_refl _
  · rw [delKeyStep_inL]
    split
    · exact appendExtras_inLExt st2 _
    · exact inLExt_refl _

theorem pkgLicenses_inLExt (st : PSt) : inLExt st.inL (pkgLicenses st).1.inL := by
  unfold pkgLicenses
  split
  · split
    · exact inLExt_refl _
    · split
      · exact inLExt_refl _
      · split
        · exact inLExt_refl _
        · refine inLExt_trans (inLExt_of_eq ?_) (pkgLicensesTail_inLExt _)
          split <;> rfl
  · exact inLExt_refl _

theorem pkgSourcesTail_inLExt (st3 : PSt) :
    inLExt st3.inL (pkgSourcesTail st3).1.inL := by
  unfold pkgSourcesTail
  split
  · exact inLExt_refl _
  · rw [delKeyStep_inL]
    split
    · exact appendExtras_inLExt st3 _
    · exact inLExt_refl _

theorem pkgSourcesCont_inLExt (s0 : JValue) (st2 : PSt) :
    inLExt st2.inL (pkgSourcesCont s0 st2).1.inL := by
  unfold pkgSourcesCont
  split
  · exact inLExt_refl _
  · refine inLExt_trans (inLExt_of_eq ?_) (pkgSourcesTail_inLExt _)
    split <;> rfl

theorem pkgSources_inLExt (st : PSt) : inLExt st.inL (pkgSources st).1.inL := by
  unfold pkgSources
  split
  · split
    · exact inLExt_refl _
    · split
      · exact inLExt_refl _
      · split
        · exact inLExt_refl _
        · refine inLExt_trans (inLExt_of_eq ?_) (pkgSourcesCont_inLExt _ _)
          split <;> rfl
  · exact inLExt_refl _

theorem pkgContribOverflow_inLExt (c0 : JValue) (st2 : PSt) :
    inLExt st2.inL (pkgContribOverflow c0 st2).1.inL := by
  unfold pkgContribOverflow
  split
  · exact inLExt_refl _
  · rw [delKeyStep_inL]
    split
    · exact appendExtras_inLExt st2 _
    · split
      all_goals first
        | exact inLExt_refl _
        | (split <;> exact inLExt_refl _)

theorem pkgContrib_inLExt (st : PSt) : inLExt st.inL (pkgContrib st).1.inL := by
  unfold pkgContrib
  split
  · split
    · exact inLExt_refl _
    · split
      · exact inLExt_refl _
      · split
        · exact inLExt_refl _
        · refine inLExt_trans (inLExt_of_eq ?_) (pkgContribOverflow_inLExt _ _)
          split <;> rfl
  · exact inLExt_refl _

theorem pkgKeywords_inL (st : PSt) : (pkgKeywords st).1.inL = st.inL := by
  unfold pkgKeywords
  split
  · split
    · rfl
    · split <;> rfl
  · rfl

theorem pseq_inLExt {r : PSt × Option PyErr} {f : PSt → PSt × Option PyErr}
    (hf : ∀ st, inLExt st.inL (f st).1.inL) : inLExt r.1.inL (pseq r f).1.inL := by
  rcases r with ⟨st, e⟩
  cases e with
  | none => exact hf st
  | some e => exact inLExt_refl _

theorem packageRun_inLExt (d : Record) :
    inLExt (pkgInit d).inL (packageRun d).1.inL := by
  unfold packageRun pkgPre
  have h1 : inLExt (pkgRename d (pkgInit d), none).1.inL
      (pseq (pkgRename d (pkgInit d), none) pkgLicenses).1.inL :=
    pseq_inLExt pkgLicenses_inLExt
  have h2 : inLExt (pseq (pkgRename d (pkgInit d), none) pkgLicenses).1.inL
      (pseq (pseq (pkgRename d (pkgInit d), none) pkgLicenses) pkgSources).1.inL :=
    pseq_inLExt pkgSources_inLExt
  have h3 : inLExt
      (pseq (pseq (pkgRename d (pkgInit d), none) pkgLicenses) pkgSources).1.inL
      (pseq (pseq (pseq (pkgRename d (pkgInit d), none) pkgLicenses) pkgSources)
        pkgContrib).1.inL :=
    pseq_inLExt pkgContrib_inLExt
  have h4 : inLExt
      (pseq (pseq (pseq (pkgRename d (pkgInit d), none) pkgLicenses) pkgSources)
        pkgContrib).1.inL
      (pseq (pseq (pseq (pseq (pkgRename d (pkgInit d), none) pkgLicenses) pkgSources)
        pkgContrib) pkgKeywords).1.inL :=
    pseq_inLExt fun st => inLExt_of_eq (pkgKeywords_inL st).symm
  exact inLExt_trans (inLExt_trans (inLExt_trans h1 h2) h3) h4

/-- C6 counterexample: on a package whose `extras` is already a
non-empty list, archiving overflow licenses appends the
`\x7b'licenses': ...\x7d` entry to the *input's own* extras list
(`outdict['extras'].append` reaches the list shared by the shallow
`dict(fddict)` copy), so the input observable after the call differs
from the original input. -/
theorem claim_C6_counterexample :
    inputAfter [("licenses", .arr [.obj [("type", .s "a")], .obj [("type", .s "b")]]),
        ("extras", .arr [.obj [("key", .s "k"), ("value", .s "v")]])] =
      [("licenses", .arr [.obj [("type", .s "a")], .obj [("type", .s "b")]]),
        ("extras", .arr [.obj [("key", .s "k"), ("value", .s "v")],
          .obj [("licenses", .arr [.obj [("type", .s "a")], .obj [("type", .s "b")]])]])] ∧
    inputAfter [("licenses", .arr [.obj [("type", .s "a")], .obj [("type", .s "b")]]),
        ("extras", .arr [.obj [("key", .s "k"), ("value", .s "v")]])] ≠
      [("licenses", .arr [.obj [("type", .s "a")], .obj [("type", .s "b")]]),
        ("extras", .arr [.obj [("key", .s "k"), ("value", .s "v")]])] := by
  decide

/-- C6 (amended): packageToCatalog never touches its input *except*
through the extras list shared by the shallow copy: if the input's
`extras` is not a list the input is left unchanged, and if it is the
list `L` the input afterwards is the same record with that list
extended by some (possibly empty) sequence of appended overflow
entries. -/
theorem claim_C6_amended (d : Record) :
    (extrasIsList d = false → inputAfter d = d) ∧
    ∀ L, pyGet d "extras" = some (.arr L) →
      ∃ es, inputAfter d = pySet d "extras" (.arr (L ++ es)) := by
  constructor
  · intro h
    have h0 : (pkgInit d).inL = none := by
      unfold extrasIsList at h
      unfold pkgInit
      cases hp : pyGet d "extras" with
      | none => rfl
      | some v =>
        rw [hp] at h
        cases v with
        | arr l => exact Bool.noConfusion h
        | null => rfl
        | b x => rfl
        | i x => rfl
        | s x => rfl
        | obj o => rfl
    have h1 : (packageRun d).1.inL = none := (packageRun_inLExt d).1 h0
    unfold inputAfter
    rw [h1]
  · intro L hL
    have h0 : (pkgInit d).inL = some L := by
      unfold pkgInit
      rw [hL]
    obtain ⟨es, hb⟩ := (packageRun_inLExt d).2 L h0
    refine ⟨es, ?_⟩
    unfold inputAfter
    rw [hb]

/-- Witness: on an input without a list-valued `extras`, the input
observable after `package` is the input itself. -/
theorem claim_C6_amended_witness :
    inputAfter [("a", JValue.s "x")] = [("a", JValue.s "x")] :=
  (claim_C6_amended [("a", JValue.s "x")]).1 (by decide)
